import Mathlib

/-!
# points-above-replacement: the two fetcher commands

A verification development for

* `cmd/fd_standings_fetch/main.go`  (team standings from a JSON API), and
* `cmd/fbref_players_fetch/main.go` (player metrics from an HTML stats site).

Go strings are byte sequences; they are embedded as lists of byte values.
Go `int` values are embedded as `Int`.  The network, the JSON decoder, the CSV
writer and the `fbref` package are outside the two files; they appear as
parameters of the embedded `main` functions, and every effect of a run
(request issued, record written, flush) is recorded in an event trace.
-/

set_option autoImplicit false

/-- A Go string: its bytes, in order. -/
abbrev GoString := List Nat

/-- The bytes of an ASCII literal. -/
def ascii (s : String) : GoString := s.toList.map Char.toNat

namespace Go

/-! ## The parts of the Go standard library the two commands call -/

/-- UTF-8 encodings of the code points for which `unicode.IsSpace` holds:
tab, LF, VT, FF, CR, space, U+0085, U+00A0, U+1680, U+2000..U+200A, U+2028,
U+2029, U+202F, U+205F, U+3000. -/
def spaceEncodings : List GoString :=
  [[0x09], [0x0A], [0x0B], [0x0C], [0x0D], [0x20],
   [0xC2, 0x85], [0xC2, 0xA0],
   [0xE1, 0x9A, 0x80],
   [0xE2, 0x80, 0x80], [0xE2, 0x80, 0x81], [0xE2, 0x80, 0x82], [0xE2, 0x80, 0x83],
   [0xE2, 0x80, 0x84], [0xE2, 0x80, 0x85], [0xE2, 0x80, 0x86], [0xE2, 0x80, 0x87],
   [0xE2, 0x80, 0x88], [0xE2, 0x80, 0x89], [0xE2, 0x80, 0x8A],
   [0xE2, 0x80, 0xA8], [0xE2, 0x80, 0xA9], [0xE2, 0x80, 0xAF],
   [0xE2, 0x81, 0x9F],
   [0xE3, 0x80, 0x80]]

/-- Remove, one after the other, every leading occurrence of one of the byte
sequences `encs`; `fuel` bounds the number of removals. -/
def stripLeading (encs : List GoString) : Nat → GoString → GoString
  | 0, s => s
  | fuel + 1, s =>
    match encs.find? (fun e => e.isPrefixOf s) with
    | some e => stripLeading encs fuel (s.drop e.length)
    | none => s

/-- The string without its leading white space (`strings.TrimLeftFunc` with
`unicode.IsSpace`): white-space runes are removed from the front until the
string starts with something else. -/
def TrimLeftSpace (s : GoString) : GoString :=
  stripLeading spaceEncodings s.length s

/-- The string without its trailing white space (`strings.TrimRightFunc` with
`unicode.IsSpace`): white-space runes are removed from the back until the
string ends with something else. -/
def TrimRightSpace (s : GoString) : GoString :=
  (stripLeading (spaceEncodings.map List.reverse) s.length s.reverse).reverse

/-- Model of `strings.TrimSpace`: "returns a slice of the string s, with all
leading and trailing white space removed, as defined by Unicode". -/
def TrimSpace (s : GoString) : GoString :=
  TrimRightSpace (TrimLeftSpace s)

/-- The part of `s` before the first byte `sep`, and the parts after it. -/
def splitParts (sep : Nat) : GoString → GoString × List GoString
  | [] => ([], [])
  | b :: rest =>
    let r := splitParts sep rest
    if b = sep then ([], r.1 :: r.2) else (b :: r.1, r.2)

/-- Model of `strings.Split(s, sep)` for a separator of one byte: the
substrings between the separators; one more element than there are
separators (so `Split "" ","` is `[""]`). -/
def Split (s : GoString) (sep : Nat) : List GoString :=
  (splitParts sep s).1 :: (splitParts sep s).2

/-- The comparison of one pair of bytes in the ASCII path of
`strings.EqualFold`: equal, or the smaller one is an upper-case letter and
the larger one is the same letter in lower case. -/
def foldEqByte (sr tr : Nat) : Bool :=
  if tr = sr then true
  else
    let lo := if tr < sr then tr else sr
    let hi := if tr < sr then sr else tr
    decide (65 ≤ lo ∧ lo ≤ 90 ∧ hi = lo + 32)

/-- Model of `strings.EqualFold(s, t)` ("equal under simple Unicode
case-folding") for the way the standings command calls it: `t` is an ASCII
literal without the letters K and S, the only ASCII letters that fold to a
rune outside ASCII.  For such a `t` a byte of `s` outside ASCII never
matches, and inside ASCII folding is the comparison `foldEqByte`. -/
def EqualFold : GoString → GoString → Bool
  | [], [] => true
  | sr :: s, tr :: t =>
    if 128 ≤ sr ∨ 128 ≤ tr then false else foldEqByte sr tr && EqualFold s t
  | _, _ => false

/-- Model of `strings.TrimRight(s, cutset)` for a cutset of one byte. -/
def TrimRight (s : GoString) (cut : Nat) : GoString :=
  (s.reverse.dropWhile (fun b => b = cut)).reverse

/-- The slice expression `s[i:]`; `none` is the run-time panic
"slice bounds out of range", raised when `i > len(s)`. -/
def sliceFrom (s : GoString) (i : Nat) : Option GoString :=
  if i ≤ s.length then some (s.drop i) else none

/-- The text `fmt.Sprintf("%d", n)`: the decimal digits of `n`, after a minus
sign when `n` is negative. -/
def formatInt (n : Int) : GoString :=
  if n < 0 then 45 :: (Nat.toDigits 10 n.natAbs).map Char.toNat
  else (Nat.toDigits 10 n.natAbs).map Char.toNat

/-- The value of a non-empty string of decimal digits, `acc` being the value
of the digits read so far. -/
def parseDigits : Nat → GoString → Option Nat
  | acc, [] => some acc
  | acc, ch :: rest =>
    if 48 ≤ ch ∧ ch ≤ 57 then parseDigits (acc * 10 + (ch - 48)) rest else none

/-- Model of `strconv.Atoi` with a 64-bit `int`: an optional sign, then at
least one decimal digit and nothing else; `none` is the error result (syntax
error, or value out of the range of `int`). -/
def Atoi (s : GoString) : Option Int :=
  let neg := s.head? = some 45
  let ds := if s.head? = some 45 ∨ s.head? = some 43 then s.drop 1 else s
  if ds = [] then none
  else
    match parseDigits 0 ds with
    | none => none
    | some n =>
      let v : Int := if neg then -(n : Int) else (n : Int)
      if -(2 : Int) ^ 63 ≤ v ∧ v < (2 : Int) ^ 63 then some v else none

end Go

/-! ## `cmd/fbref_players_fetch/main.go` -/

namespace FbrefPlayersFetch

/-- Embedding of `split` in `cmd/fbref_players_fetch/main.go`: the loop over
`strings.Split(s, ",")` appends every trimmed, non-empty part to `out`. -/
def split (s : GoString) : List GoString :=
  (Go.Split s 44).foldl
    (fun out p =>
      let p := Go.TrimSpace p
      if p ≠ [] then out ++ [p] else out)
    []

/-- The flags the run depends on. -/
structure Flags where
  seasonsCSV : GoString
  destLeague : GoString
  fromLeague : GoString
deriving DecidableEq, Repr

/-- What a run does to the outside, in order.  The events of the loop body
carry the position of their season in the season list. -/
inductive Event where
  /-- `fbref.WriteBacktesterHeader(w)`. -/
  | header
  /-- `client.Get(url)`. -/
  | request (season : Nat) (url : GoString)
  /-- `fbref.WriteBacktesterRows(w, joined)`, with the records it handed to
  the CSV writer. -/
  | rows (season : Nat) (records : List (List GoString))
  /-- `w.Flush()` in the loop body. -/
  | flush (season : Nat)
  /-- The line "Season %s: wrote %d player rows" on standard output. -/
  | report (season : Nat) (wrote : Int)
  /-- The line "Done. Wrote %d total rows to %s" on standard output. -/
  | done (totalRows : Int)
  /-- The deferred `w.Flush()` when `main` returns. -/
  | deferredFlush
deriving DecidableEq, Repr

/-- The season position an event of the loop body carries. -/
def Event.season : Event → Option Nat
  | Event.request i _ => some i
  | Event.rows i _ => some i
  | Event.flush i => some i
  | Event.report i _ => some i
  | _ => none

/-- The messages of `die`. -/
inductive Failure where
  | noSeasons
  | mkdir
  | createOut
  | badSeasonYear
  | fetchStandard
  | fetchShooting
  | extractStandard
  | extractShooting
  | parseStandard
  | parseShooting
  | csvWrite
  | csvFlush
deriving DecidableEq, Repr

/-- What `client.Get` returns: body, status code, and whether `err` is
non-nil. -/
structure FetchResult where
  body : GoString
  code : Int
  err : Bool
deriving DecidableEq, Repr

/-- What `fbref.WriteBacktesterRows` did: the records it handed to the CSV
writer, and its two results. -/
structure WriteResult where
  records : List (List GoString)
  wrote : Int
  err : Bool
deriving DecidableEq, Repr

/-- Everything outside the file: the operating system, the network, the CSV
writer and the package `fbref`, whose source is not part of the two
commands.  `Table`, `Rows` and `Joined` are the types of a table fragment,
of parsed rows and of joined rows.  An `Option` result is `none` when the Go
function returns a non-nil error.  The answers of the network and of the
writer may depend on all that happened before. -/
structure World (Table Rows Joined : Type) where
  mkdirAllErr : Bool
  createErr : Bool
  SeasonLabel : Int → GoString
  StandardURL : Int → GoString
  ShootingURL : Int → GoString
  Get : List Event → GoString → FetchResult
  ExtractTable : GoString → GoString → Option Table
  ParsePlayerTable : Table → List GoString → Option Rows
  RequiredStandardCols : List GoString
  RequiredShootingCols : List GoString
  RequiredShootingColsFallback : List GoString
  JoinStandardShooting : GoString → Rows → Rows → GoString → GoString → Joined
  WriteBacktesterRows : List Event → Joined → WriteResult
  /-- `w.Error()` is non-nil after the flush of the loop body. -/
  flushErr : List Event → Bool

/-- The state of `main`: the events so far and the variable `totalRows`. -/
structure St where
  trace : List Event
  totalRows : Int
deriving DecidableEq, Repr

/-- Embedding of `die`: the message is printed and the process exits with
status 1; nothing else happens. -/
def die (st : St) (f : Failure) : St × Option Failure :=
  (st, some f)

/-- The state after one more event. -/
def St.log (st : St) (e : Event) : St :=
  { st with trace := st.trace ++ [e] }

/-- The status check on a fetch, `err != nil || code < 200 || code >= 300`. -/
def rejected (r : FetchResult) : Bool :=
  r.err || decide (r.code < 200) || decide (r.code ≥ 300)

/-- The parse of the shooting table (lines 85 to 92): the column sets the
parser was called with, in order, and the rows it ends with (`none`: the
error that makes the run die). -/
def parseShooting {Table Rows Joined : Type} (w : World Table Rows Joined)
    (shoTable : Table) : List (List GoString) × Option Rows :=
  match w.ParsePlayerTable shoTable w.RequiredShootingCols with
  | some shoRows => ([w.RequiredShootingCols], some shoRows)
  | none =>
    match w.ParsePlayerTable shoTable w.RequiredShootingColsFallback with
    | some shoRows =>
      ([w.RequiredShootingCols, w.RequiredShootingColsFallback], some shoRows)
    | none => ([w.RequiredShootingCols, w.RequiredShootingColsFallback], none)

/-- The loop body from the parse of the two tables on (lines 80 to 104). -/
def parseJoinWrite {Table Rows Joined : Type} (cfg : Flags) (w : World Table Rows Joined)
    (i : Nat) (seasonStr : GoString) (stdTable shoTable : Table) (st : St) :
    St × Option Failure :=
  match w.ParsePlayerTable stdTable w.RequiredStandardCols with
  | none => die st Failure.parseStandard
  | some stdRows =>
    match (parseShooting w shoTable).2 with
    | none => die st Failure.parseShooting
    | some shoRows =>
      let joined :=
        w.JoinStandardShooting seasonStr stdRows shoRows cfg.destLeague cfg.fromLeague
      let wr := w.WriteBacktesterRows st.trace joined
      let st := st.log (Event.rows i wr.records)
      if wr.err then die st Failure.csvWrite
      else
        let bad := w.flushErr st.trace
        let st := st.log (Event.flush i)
        if bad then die st Failure.csvFlush
        else
          ({ trace := st.trace ++ [Event.report i wr.wrote],
             totalRows := st.totalRows + wr.wrote }, none)

/-- The body of the loop over `years`, for the token `ys` at position `i`. -/
def processSeason {Table Rows Joined : Type} (cfg : Flags) (w : World Table Rows Joined)
    (i : Nat) (ys : GoString) (st : St) : St × Option Failure :=
  match Go.Atoi (Go.TrimSpace ys) with
  | none => die st Failure.badSeasonYear
  | some yr =>
    let seasonStr := w.SeasonLabel yr
    let stdURL := w.StandardURL yr
    let shoURL := w.ShootingURL yr
    let stdRes := w.Get st.trace stdURL
    let st := st.log (Event.request i stdURL)
    if rejected stdRes then die st Failure.fetchStandard
    else
      let shoRes := w.Get st.trace shoURL
      let st := st.log (Event.request i shoURL)
      if rejected shoRes then die st Failure.fetchShooting
      else
        match w.ExtractTable stdRes.body (ascii "stats_standard") with
        | none => die st Failure.extractStandard
        | some stdTable =>
          match w.ExtractTable shoRes.body (ascii "stats_shooting") with
          | none => die st Failure.extractShooting
          | some shoTable => parseJoinWrite cfg w i seasonStr stdTable shoTable st

/-- The loop `for _, ys := range years`, from position `i` on. -/
def loop {Table Rows Joined : Type} (cfg : Flags) (w : World Table Rows Joined) :
    Nat → List GoString → St → St × Option Failure
  | _, [], st => (st, none)
  | i, ys :: rest, st =>
    match processSeason cfg w i ys st with
    | (st1, some f) => (st1, some f)
    | (st1, none) => loop cfg w (i + 1) rest st1

/-- Embedding of `main`: the events of the run and how it ended (`none`: it
returned). -/
def main {Table Rows Joined : Type} (cfg : Flags) (w : World Table Rows Joined) :
    List Event × Option Failure :=
  let years := split cfg.seasonsCSV
  if years.length = 0 then ([], some Failure.noSeasons)
  else if w.mkdirAllErr then ([], some Failure.mkdir)
  else if w.createErr then ([], some Failure.createOut)
  else
    match loop cfg w 0 years { trace := [Event.header], totalRows := 0 } with
    | (st, some f) => (st.trace, some f)
    | (st, none) => (st.trace ++ [Event.done st.totalRows, Event.deferredFlush], none)

/-- The response is accepted: no error and a 2xx status. -/
def accepted (r : FetchResult) : Prop :=
  r.err = false ∧ 200 ≤ r.code ∧ r.code < 300

instance (r : FetchResult) : Decidable (accepted r) := by
  unfold accepted
  infer_instance

/-- The URLs of the requests of a trace, in order. -/
def requested : List Event → List GoString
  | [] => []
  | Event.request _ url :: tr => url :: requested tr
  | _ :: tr => requested tr

/-- The URLs of a run in which nothing fails: for each season token, in the
order of the list, the standard page and then the shooting page of its
year.  A token that is not a year contributes nothing. -/
def plannedURLs {Table Rows Joined : Type} (w : World Table Rows Joined) :
    List GoString → List GoString
  | [] => []
  | ys :: rest =>
    match Go.Atoi (Go.TrimSpace ys) with
    | some yr => w.StandardURL yr :: w.ShootingURL yr :: plannedURLs w rest
    | none => plannedURLs w rest

end FbrefPlayersFetch

/-! ## `cmd/fd_standings_fetch/main.go` -/

namespace FdStandingsFetch

/-- Embedding of `split` in `cmd/fd_standings_fetch/main.go`. -/
def split (s : GoString) : List GoString :=
  (Go.Split s 44).foldl
    (fun out p =>
      let p := Go.TrimSpace p
      if p ≠ [] then out ++ [p] else out)
    []

/-- The `team` object of a table row. -/
structure TeamInfo where
  ID : Int
  Name : GoString
  Tla : GoString
deriving DecidableEq, Repr

/-- One row of a standings table. -/
structure TableRow where
  Team : TeamInfo
  Position : Int
  Points : Int
  GoalDifference : Int
deriving DecidableEq, Repr

/-- One entry of `standings[]`: its `type` and its `table`. -/
structure Standing where
  Typ : GoString
  Table : List TableRow
deriving DecidableEq, Repr

/-- The decoded response, `standingsResp`. -/
structure standingsResp where
  Season : Int
  Standings : List Standing
  CompetitionCode : GoString
deriving DecidableEq, Repr

/-- Embedding of `pickMainTable`: the first entry whose type folds to
"TOTAL", with a nil error; the zero entry and an error when there is none. -/
def pickMainTable : List Standing → Standing × Option GoString
  | [] => ({ Typ := [], Table := [] }, some (ascii "no TOTAL table in standings"))
  | s :: sts =>
    if Go.EqualFold s.Typ (ascii "TOTAL") then (s, none) else pickMainTable sts

/-- The flags the run depends on. -/
structure Flags where
  apiBase : GoString
  apiKey : GoString
  code : GoString
  seasonsCSV : GoString
deriving DecidableEq, Repr

/-- What a run does to the outside, in order. -/
inductive Event where
  /-- `rc.Do(req)`: the request built by `http.NewRequest("GET", url, nil)`,
  with the header `X-Auth-Token: token`. -/
  | request (url : GoString) (token : GoString)
  /-- `w.Write(rec)` on the CSV writer. -/
  | write (rec : List GoString)
  /-- `w.Flush()`. -/
  | flush
deriving DecidableEq, Repr

/-- The messages of `log.Fatal`. -/
inductive Failure where
  | missingAPIKey
  | noSeasons
  | mkdir
  | createOut
  | csvWrite
  /-- "fetch %s: %v" -/
  | fetch
  /-- "rate limited or blocked (%d). slow rps/burst and retry later" -/
  | rateLimited (code : Int)
  /-- "bad status %d for %s: %s" -/
  | badStatus (code : Int)
  | json
  | standingsParse
  | csvError
deriving DecidableEq, Repr

/-- How a run ends early. -/
inductive Abort where
  /-- `log.Fatal`: the message is logged and the process exits with status 1;
  deferred calls do not run. -/
  | fatal (f : Failure)
  /-- The run-time panic of `req.Header.Set` on a nil request: the error of
  `http.NewRequest` is discarded, and the request is nil when it is non-nil. -/
  | nilRequest
  /-- The run-time panic of `y[2:]`, slice bounds out of range. -/
  | sliceBounds
deriving DecidableEq, Repr

/-- What `rc.Do` returns: body, status code, and whether `err` is non-nil. -/
structure FetchResult where
  body : GoString
  code : Int
  err : Bool
deriving DecidableEq, Repr

/-- Everything outside the file.  The answers of the network and of the
CSV writer may depend on all that happened before. -/
structure World where
  /-- `os.MkdirAll` fails. -/
  mkdirAllErr : Bool
  /-- `os.Create` fails. -/
  createErr : Bool
  /-- `http.NewRequest("GET", url, nil)` returns a request and a nil error:
  the URL parses.  Otherwise it returns a nil request. -/
  NewRequest : GoString → Bool
  /-- The rate-limited client: history, url, token. -/
  Do : List Event → GoString → GoString → FetchResult
  /-- `json.Unmarshal` into a `standingsResp`; `none` is an error. -/
  Unmarshal : GoString → Option standingsResp
  /-- `w.Write(rec)` returns an error. -/
  writeErr : List Event → List GoString → Bool
  /-- `w.Error()` is non-nil after the final flush. -/
  flushErr : List Event → Bool

/-- The header record. -/
def header : List GoString :=
  [ascii "season", ascii "team_id", ascii "points", ascii "rank", ascii "goal_diff"]

/-- The request URL of season `y`:
`fmt.Sprintf("%s/competitions/%s/standings?season=%s", strings.TrimRight(*apiBase,"/"), *code, y)`. -/
def seasonURL (cfg : Flags) (y : GoString) : GoString :=
  Go.TrimRight cfg.apiBase 47 ++ ascii "/competitions/" ++ cfg.code
    ++ ascii "/standings?season=" ++ y

/-- The label `fmt.Sprintf("%s/%s", y, y[2:])`; `none` when `y[2:]` panics. -/
def seasonStr (y : GoString) : Option GoString :=
  match Go.sliceFrom y 2 with
  | some tail => some (y ++ ascii "/" ++ tail)
  | none => none

/-- The record written for one table row. -/
def record (label : GoString) (row : TableRow) : List GoString :=
  [label, Go.formatInt row.Team.ID, Go.formatInt row.Points,
   Go.formatInt row.Position, Go.formatInt row.GoalDifference]

/-- The loop over `mainTable.Table`: one `w.Write` per row, fatal on the
first error. -/
def writeRows (w : World) (label : GoString) :
    List TableRow → List Event → List Event × Option Abort
  | [], tr => (tr, none)
  | row :: rows, tr =>
    let rec_ := record label row
    if w.writeErr tr rec_ then (tr ++ [Event.write rec_], some (Abort.fatal Failure.csvWrite))
    else writeRows w label rows (tr ++ [Event.write rec_])

/-- The body of the loop over `seasons`, for the season token `y`, started
with the history `tr`.  The request is built first (lines 73 to 75): when the
URL does not parse, `req` is nil and `req.Header.Set` panics before anything
is sent. -/
def processSeason (cfg : Flags) (w : World) (y : GoString) (tr : List Event) :
    List Event × Option Abort :=
  let url := seasonURL cfg y
  if w.NewRequest url = false then (tr, some Abort.nilRequest)
  else
    let res := w.Do tr url cfg.apiKey
    let tr := tr ++ [Event.request url cfg.apiKey]
    if res.err then (tr, some (Abort.fatal Failure.fetch))
    else if res.code ≥ 429 then (tr, some (Abort.fatal (Failure.rateLimited res.code)))
    else if res.code < 200 ∨ res.code ≥ 300 then
      (tr, some (Abort.fatal (Failure.badStatus res.code)))
    else
      match w.Unmarshal res.body with
      | none => (tr, some (Abort.fatal Failure.json))
      | some sr =>
        match seasonStr y with
        | none => (tr, some Abort.sliceBounds)
        | some label =>
          match pickMainTable sr.Standings with
          | (_, some _) => (tr, some (Abort.fatal Failure.standingsParse))
          | (mainTable, none) => writeRows w label mainTable.Table tr

/-- The loop `for _, y := range seasons`. -/
def loop (cfg : Flags) (w : World) : List GoString → List Event → List Event × Option Abort
  | [], tr => (tr, none)
  | y :: ys, tr =>
    match processSeason cfg w y tr with
    | (tr1, some a) => (tr1, some a)
    | (tr1, none) => loop cfg w ys tr1

/-- Embedding of `main`: the events of the run and how it ended (`none`: it
returned).  The deferred `w.Flush()` runs when `main` returns and when it
panics, not after `log.Fatal`. -/
def main (cfg : Flags) (w : World) : List Event × Option Abort :=
  if cfg.apiKey = [] then ([], some (Abort.fatal Failure.missingAPIKey))
  else
    let seasons := split cfg.seasonsCSV
    if seasons.length = 0 then ([], some (Abort.fatal Failure.noSeasons))
    else if w.mkdirAllErr then ([], some (Abort.fatal Failure.mkdir))
    else if w.createErr then ([], some (Abort.fatal Failure.createOut))
    else if w.writeErr [] header then
      ([Event.write header], some (Abort.fatal Failure.csvWrite))
    else
      match loop cfg w seasons [Event.write header] with
      | (tr, some Abort.nilRequest) => (tr ++ [Event.flush], some Abort.nilRequest)
      | (tr, some Abort.sliceBounds) => (tr ++ [Event.flush], some Abort.sliceBounds)
      | (tr, some (Abort.fatal f)) => (tr, some (Abort.fatal f))
      | (tr, none) =>
        if w.flushErr (tr ++ [Event.flush]) then
          (tr ++ [Event.flush], some (Abort.fatal Failure.csvError))
        else (tr ++ [Event.flush, Event.flush], none)

/-- The records handed to the CSV writer, in order. -/
def written : List Event → List (List GoString)
  | [] => []
  | Event.write r :: tr => r :: written tr
  | _ :: tr => written tr

/-- The response is accepted: no error and a 2xx status. -/
def accepted (r : FetchResult) : Prop :=
  r.err = false ∧ 200 ≤ r.code ∧ r.code < 300

instance (r : FetchResult) : Decidable (accepted r) := by
  unfold accepted
  infer_instance

/-- Lower-case ASCII letters mapped to upper case, other bytes unchanged. -/
def upperASCII (b : Nat) : Nat :=
  if 97 ≤ b ∧ b ≤ 122 then b - 32 else b

/-- The type equals "TOTAL" when letter case is ignored. -/
def isTotal (t : GoString) : Prop :=
  t.map upperASCII = ascii "TOTAL"

instance (t : GoString) : Decidable (isTotal t) := by
  unfold isTotal
  infer_instance

end FdStandingsFetch

/-! ## The join of package `fbref` -/

namespace Fbref

/-- Modelled from the spec: the `PlayerRow` of the data model, "player name,
team, season label, plus a mapping from required-column-name to parsed
value".  The source of package `fbref` is missing. -/
structure PlayerRow where
  player : GoString
  team : GoString
  season : GoString
  values : List (GoString × GoString)
deriving DecidableEq, Repr

/-- Modelled from the spec: the `JoinedRow` of the data model, "season,
from_league, dest_league, player identity fields, merged standard+shooting
metrics".  The source of package `fbref` is missing. -/
structure JoinedRow where
  season : GoString
  fromLeague : GoString
  destLeague : GoString
  player : GoString
  team : GoString
  standard : List (GoString × GoString)
  shooting : List (GoString × GoString)
deriving DecidableEq, Repr

/-- Modelled from the spec: the composite identity key of a row, the
normalized (player name, team) pair.  The normalization `norm` is not fixed
by the spec.  The source of package `fbref` is missing. -/
def identityKey (norm : GoString → GoString) (r : PlayerRow) : GoString × GoString :=
  (norm r.player, norm r.team)

/-- Modelled from the spec: the index of the shooting rows "keyed by
normalized (player name, team) pairs".  The source of package `fbref` is
missing. -/
def buildIndex (norm : GoString → GoString) (shootingRows : List PlayerRow) :
    List ((GoString × GoString) × PlayerRow) :=
  shootingRows.map (fun r => (identityKey norm r, r))

/-- Modelled from the spec: the look-up of a key in the index.  The source of
package `fbref` is missing; which of two shooting rows with one key is found
is not fixed by the spec, here it is the first. -/
def lookupIndex (index : List ((GoString × GoString) × PlayerRow))
    (k : GoString × GoString) : Option PlayerRow :=
  match index.find? (fun e => e.1 = k) with
  | some e => some e.2
  | none => none

/-- Modelled from the spec: the join engine, whose source (package `fbref`)
is missing.  It "builds an index of shootingRows keyed by normalized (player
name, team) pairs", "iterates standardRows in their original order and, for
each, looks up the matching shooting row"; "a standard row with no shooting
match is emitted with shooting fields defaulted to empty"; "each JoinedRow
carries the literal seasonLabel, destLeague, fromLeague strings
unchanged". -/
def JoinStandardShooting (norm : GoString → GoString) (seasonLabel : GoString)
    (standardRows shootingRows : List PlayerRow) (destLeague fromLeague : GoString) :
    List JoinedRow :=
  let index := buildIndex norm shootingRows
  standardRows.map (fun r =>
    { season := seasonLabel
      fromLeague := fromLeague
      destLeague := destLeague
      player := r.player
      team := r.team
      standard := r.values
      shooting :=
        match lookupIndex index (identityKey norm r) with
        | some sh => sh.values
        | none => [] })

end Fbref

/-- The description of `split`: split the input on commas, trim the white
space around each part, keep the non-empty results in their order. -/
def splitSpec (s : GoString) : List GoString :=
  ((Go.Split s 44).map Go.TrimSpace).filter (fun p => p ≠ [])

/-- The string starts with a white-space rune. -/
def startsWithSpace (s : GoString) : Prop :=
  ∃ e ∈ Go.spaceEncodings, e <+: s

/-- The string ends with a white-space rune. -/
def endsWithSpace (s : GoString) : Prop :=
  ∃ e ∈ Go.spaceEncodings, e <:+ s

/-- The string is made of commas and white-space runes only. -/
def onlyCommasAndSpace (s : GoString) : Prop :=
  ∃ pieces : List GoString,
    (∀ p ∈ pieces, p = [44] ∨ p ∈ Go.spaceEncodings) ∧ s = pieces.flatten

/-- The string is made of white-space runes only. -/
def onlySpace (s : GoString) : Prop :=
  ∃ pieces : List GoString, (∀ p ∈ pieces, p ∈ Go.spaceEncodings) ∧ s = pieces.flatten

/-! ## Outcome classes and sample runs -/

namespace FdStandingsFetch

/-- The run was ended by the fetch or by the status of the response. -/
def fetchFailure : Option Abort → Bool
  | some (Abort.fatal Failure.fetch) => true
  | some (Abort.fatal (Failure.rateLimited _)) => true
  | some (Abort.fatal (Failure.badStatus _)) => true
  | _ => false

/-- Flags of a sample run: one season, 2020. -/
def sampleFlags : Flags :=
  { apiBase := ascii "https://api.football-data.org/v4/"
    apiKey := ascii "secret"
    code := ascii "PL"
    seasonsCSV := ascii "2020" }

/-- A decoded response with a HOME table and then a TOTAL table of two teams. -/
def sampleResp : standingsResp :=
  { Season := 2020
    Standings :=
      [ { Typ := ascii "HOME"
          Table := [ { Team := { ID := 57, Name := ascii "Arsenal FC", Tla := ascii "ARS" }
                       Position := 1, Points := 40, GoalDifference := 20 } ] },
        { Typ := ascii "Total"
          Table := [ { Team := { ID := 65, Name := ascii "Manchester City FC", Tla := ascii "MCI" }
                       Position := 1, Points := 86, GoalDifference := 51 },
                     { Team := { ID := 356, Name := ascii "Sheffield United FC", Tla := ascii "SHE" }
                       Position := 20, Points := 23, GoalDifference := -43 } ] } ]
    CompetitionCode := ascii "PL" }

/-- A world in which a request is built unless its URL holds an ASCII control
byte, every request is answered with the status `code` and every body decodes
to `sampleResp`; nothing else fails. -/
def sampleWorld (code : Int) : World :=
  { mkdirAllErr := false
    createErr := false
    NewRequest := fun url => url.all (fun b => decide (32 ≤ b ∧ b ≠ 127))
    Do := fun _ _ _ => { body := ascii "{}", code := code, err := false }
    Unmarshal := fun _ => some sampleResp
    writeErr := fun _ _ => false
    flushErr := fun _ => false }

end FdStandingsFetch

namespace FbrefPlayersFetch

/-- The events of a season in which nothing fails: the two requests, the
rows, the flush and the report line. -/
def seasonBlock (i : Nat) (stdURL shoURL : GoString) (records : List (List GoString))
    (wrote : Int) : List Event :=
  [Event.request i stdURL, Event.request i shoURL, Event.rows i records, Event.flush i,
   Event.report i wrote]

/-- The number of events of its season that precede the death of the run
with the given message: none for a bad year, the first request for a failed
fetch of the standard page, both requests for a failed fetch of the shooting
page, a failed extraction or a failed parse, the rows as well for a write
error, the flush as well for a flush error. -/
def eventsBefore : Failure → Nat
  | Failure.fetchStandard => 1
  | Failure.fetchShooting => 2
  | Failure.extractStandard => 2
  | Failure.extractShooting => 2
  | Failure.parseStandard => 2
  | Failure.parseShooting => 2
  | Failure.csvWrite => 3
  | Failure.csvFlush => 4
  | _ => 0

/-- The two URLs of a season token; empty strings when the token is not a
year. -/
def seasonURLs {Table Rows Joined : Type} (w : World Table Rows Joined) (ys : GoString) :
    GoString × GoString :=
  match Go.Atoi (Go.TrimSpace ys) with
  | some yr => (w.StandardURL yr, w.ShootingURL yr)
  | none => ([], [])

/-- The two players of the sample standard table. -/
def sampleStandardRows : List Fbref.PlayerRow :=
  [ { player := ascii "A", team := ascii "X", season := ascii "2020",
      values := [(ascii "minutes", ascii "90"), (ascii "goals", ascii "1")] },
    { player := ascii "B", team := ascii "X", season := ascii "2020",
      values := [(ascii "minutes", ascii "45"), (ascii "goals", ascii "0")] } ]

/-- The only player of the sample shooting table. -/
def sampleShootingRows : List Fbref.PlayerRow :=
  [ { player := ascii "A", team := ascii "X", season := ascii "2020",
      values := [(ascii "xg", ascii "0.8")] } ]

/-- A sample world.  The standard page is always served; the shooting page
is served with the status `shoCode`.  A table fragment is its identifier.
The standard table parses to `sampleStandardRows`; the shooting table parses
to `sampleShootingRows`, against the first column set only when `primaryOk`
and against the fallback set only when `fallbackOk`.  The join is the one
modelled from the spec, the writer hands one record per joined row to the
CSV writer, and the flush fails in the season at position `flushFailsAt`. -/
def sampleWorld (shoCode : Int) (primaryOk fallbackOk : Bool) (flushFailsAt : Option Nat) :
    World GoString (List Fbref.PlayerRow) (List Fbref.JoinedRow) :=
  { mkdirAllErr := false
    createErr := false
    SeasonLabel := fun yr => Go.formatInt yr
    StandardURL := fun yr => ascii "https://fbref.example/standard/" ++ Go.formatInt yr
    ShootingURL := fun yr => ascii "https://fbref.example/shooting/" ++ Go.formatInt yr
    Get := fun tr _ =>
      match tr.getLast? with
      | some (Event.request _ _) => { body := ascii "<shooting>", code := shoCode, err := false }
      | _ => { body := ascii "<standard>", code := 200, err := false }
    ExtractTable := fun _ id => some id
    ParsePlayerTable := fun tbl cols =>
      if tbl = ascii "stats_standard" then some sampleStandardRows
      else if cols = [ascii "player", ascii "team", ascii "xg", ascii "xa"] then
        (if primaryOk then some sampleShootingRows else none)
      else (if fallbackOk then some sampleShootingRows else none)
    RequiredStandardCols := [ascii "player", ascii "team", ascii "minutes", ascii "goals"]
    RequiredShootingCols := [ascii "player", ascii "team", ascii "xg", ascii "xa"]
    RequiredShootingColsFallback := [ascii "player", ascii "team", ascii "xg", ascii "xag"]
    JoinStandardShooting := fun label std sho dest src =>
      Fbref.JoinStandardShooting (fun s => s) label std sho dest src
    WriteBacktesterRows := fun _ joined =>
      { records := joined.map (fun j => [j.season, j.destLeague, j.fromLeague, j.player, j.team])
        wrote := joined.length
        err := false }
    flushErr := fun tr =>
      match tr.getLast? with
      | some (Event.rows i _) => decide (flushFailsAt = some i)
      | _ => false }

/-- Every request of a season after the first comes after the rows and the
flush of the season before it. -/
def Sequential (tr : List Event) : Prop :=
  ∀ i url before after, tr = before ++ Event.request (i + 1) url :: after →
    ∃ recs, List.Sublist [Event.rows i recs, Event.flush i] before

/-- Flags of a sample run over the seasons 2020 and 2021. -/
def sampleFlags : Flags :=
  { seasonsCSV := ascii "2020, 2021", destLeague := ascii "EPL", fromLeague := ascii "EPL" }

end FbrefPlayersFetch
/-! ## Lemmas on the library models -/

namespace Go

theorem foldEqByte_upper (sr tr : Nat) (hs : sr < 128) (h1 : 65 ≤ tr) (h2 : tr ≤ 90) :
    foldEqByte sr tr = true ↔ FdStandingsFetch.upperASCII sr = tr := by
  unfold foldEqByte FdStandingsFetch.upperASCII
  by_cases h : tr = sr
  · subst h
    have : ¬ (97 ≤ tr ∧ tr ≤ 122) := by omega
    simp [this]
  · simp only [h, if_false]
    by_cases hlt : tr < sr
    · simp only [hlt, if_true, decide_eq_true_eq]
      split <;> omega
    · simp only [hlt, if_false, decide_eq_true_eq]
      split <;> omega

theorem equalFold_upper (t : GoString) (ht : ∀ b ∈ t, 65 ≤ b ∧ b ≤ 90) :
    ∀ s : GoString, EqualFold s t = true ↔ s.map FdStandingsFetch.upperASCII = t := by
  induction t with
  | nil =>
    intro s
    cases s with
    | nil => simp [EqualFold]
    | cons a s => simp [EqualFold]
  | cons tr t ih =>
    intro s
    cases s with
    | nil => simp [EqualFold]
    | cons sr s =>
      have htr := ht tr (List.mem_cons_self _ _)
      have ih1 := ih (fun b hb => ht b (List.mem_cons_of_mem _ hb)) s
      by_cases hs : 128 ≤ sr
      · have hne : FdStandingsFetch.upperASCII sr ≠ tr := by
          unfold FdStandingsFetch.upperASCII
          split <;> omega
        simp [EqualFold, hs, hne]
      · have hlt : ¬ 128 ≤ tr := by omega
        have hb := foldEqByte_upper sr tr (by omega) htr.1 htr.2
        simp [EqualFold, hs, hlt, hb, ih1]

theorem equalFold_total (s : GoString) :
    EqualFold s (ascii "TOTAL") = true ↔ FdStandingsFetch.isTotal s := by
  unfold FdStandingsFetch.isTotal
  exact equalFold_upper (ascii "TOTAL") (by decide) s

/-! ### Stripping leading byte sequences -/

theorem stripLeading_nil (encs : List GoString) (n : Nat) : stripLeading encs n [] = [] := by
  induction n with
  | zero => rfl
  | succ n ih =>
    unfold stripLeading
    cases encs.find? (fun e => e.isPrefixOf []) with
    | none => rfl
    | some e => simpa using ih

theorem find_isPrefixOf (encs : List GoString) (s e : GoString)
    (h : encs.find? (fun e => e.isPrefixOf s) = some e) : e ∈ encs ∧ e <+: s := by
  refine ⟨List.mem_of_find?_eq_some h, ?_⟩
  have := (List.find?_eq_some.1 h).1
  exact List.isPrefixOf_iff_prefix.1 this

theorem stripLeading_pieces (encs : List GoString) (n : Nat) :
    ∀ s : GoString, ∃ pieces : List GoString,
      (∀ p ∈ pieces, p ∈ encs) ∧ s = pieces.flatten ++ stripLeading encs n s := by
  induction n with
  | zero => intro s; exact ⟨[], by simp, by simp [stripLeading]⟩
  | succ n ih =>
    intro s
    unfold stripLeading
    cases h : encs.find? (fun e => e.isPrefixOf s) with
    | none => exact ⟨[], by simp, by simp⟩
    | some e =>
      have hmem : e ∈ encs := List.mem_of_find?_eq_some h
      have hpre : e <+: s :=
        (find_isPrefixOf encs s e h).2
      obtain ⟨pieces, hp, hs⟩ := ih (s.drop e.length)
      refine ⟨e :: pieces, ?_, ?_⟩
      · intro p hp1
        rcases List.mem_cons.1 hp1 with rfl | hp2
        · exact hmem
        · exact hp p hp2
      · obtain ⟨t, rfl⟩ := hpre
        simp only [List.drop_left] at hs ⊢
        simp only [List.flatten_cons, List.append_assoc]
        rw [← hs]

theorem stripLeading_clean (encs : List GoString) (hne : ∀ e ∈ encs, e ≠ []) (n : Nat) :
    ∀ s : GoString, s.length ≤ n → ∀ e ∈ encs, ¬ e <+: stripLeading encs n s := by
  induction n with
  | zero =>
    intro s hs e he hpre
    have hnil : s = [] := List.length_eq_zero.1 (Nat.le_zero.1 hs)
    subst hnil
    simp only [stripLeading] at hpre
    exact hne e he (List.prefix_nil.1 hpre)
  | succ n ih =>
    intro s hs e he
    unfold stripLeading
    cases h : encs.find? (fun e => e.isPrefixOf s) with
    | none =>
      intro hpre
      have := List.find?_eq_none.1 h e he
      exact this (List.isPrefixOf_iff_prefix.2 hpre)
    | some e0 =>
      have hmem : e0 ∈ encs := List.mem_of_find?_eq_some h
      have hpos : 0 < e0.length := List.length_pos.2 (hne e0 hmem)
      have hlen : (s.drop e0.length).length ≤ n := by
        rw [List.length_drop]; omega
      exact ih _ hlen e he

theorem stripLeading_all (encs : List GoString) (hne : ∀ e ∈ encs, e ≠ [])
    (hfree : ∀ a ∈ encs, ∀ b ∈ encs, a <+: b → a = b) (pieces : List GoString) :
    (∀ p ∈ pieces, p ∈ encs) → ∀ n, pieces.flatten.length ≤ n →
      stripLeading encs n pieces.flatten = [] := by
  induction pieces with
  | nil => intro _ n _; simpa using stripLeading_nil encs n
  | cons p ps ih =>
    intro hp n hn
    have hpm : p ∈ encs := hp p (List.mem_cons_self _ _)
    have hpos : 0 < p.length := List.length_pos.2 (hne p hpm)
    simp only [List.flatten_cons, List.length_append] at hn
    cases n with
    | zero => omega
    | succ n =>
      rw [List.flatten_cons]
      unfold stripLeading
      cases h : encs.find? (fun e => e.isPrefixOf (p ++ ps.flatten)) with
      | none =>
        have := List.find?_eq_none.1 h p hpm
        exact absurd (List.isPrefixOf_iff_prefix.2 (List.prefix_append _ _)) this
      | some e0 =>
        have hmem : e0 ∈ encs := List.mem_of_find?_eq_some h
        have hpre : e0 <+: p ++ ps.flatten :=
          (find_isPrefixOf encs _ e0 h).2
        have heq : e0 = p := by
          rcases List.prefix_or_prefix_of_prefix hpre (List.prefix_append p ps.flatten) with h1 | h1
          · exact hfree e0 hmem p hpm h1
          · exact (hfree p hpm e0 hmem h1).symm
        subst heq
        simp only [List.drop_left]
        exact ih (fun q hq => hp q (List.mem_cons_of_mem _ hq)) n (by omega)

theorem stripLeading_suffix (encs : List GoString) (n : Nat) (s : GoString) :
    stripLeading encs n s <:+ s := by
  obtain ⟨pieces, _, hs⟩ := stripLeading_pieces encs n s
  exact ⟨pieces.flatten, hs.symm⟩

/-! ### White space -/

theorem spaceEncodings_ne_nil : ∀ e ∈ spaceEncodings, e ≠ [] := by decide

theorem spaceEncodings_free : ∀ a ∈ spaceEncodings, ∀ b ∈ spaceEncodings, a <+: b → a = b := by
  decide

theorem spaceEncodings_no_comma : ∀ e ∈ spaceEncodings, 44 ∉ e := by decide

theorem revEncodings_ne_nil : ∀ e ∈ spaceEncodings.map List.reverse, e ≠ [] := by decide

theorem trimLeftSpace_final (s : GoString) : TrimLeftSpace s <:+ s :=
  stripLeading_suffix _ _ _

theorem trimRightSpace_initial (s : GoString) : TrimRightSpace s <+: s := by
  unfold TrimRightSpace
  have h := stripLeading_suffix (spaceEncodings.map List.reverse) s.length s.reverse
  have h2 := List.reverse_prefix.2 h
  simpa using h2

theorem trimSpace_infix (s : GoString) : TrimSpace s <:+: s := by
  unfold TrimSpace
  exact (trimRightSpace_initial _).isInfix.trans (trimLeftSpace_final s).isInfix

theorem trimSpace_no_leading (s : GoString) : ¬ startsWithSpace (TrimSpace s) := by
  rintro ⟨e, he, hpre⟩
  have h1 : e <+: TrimLeftSpace s := hpre.trans (trimRightSpace_initial _)
  exact stripLeading_clean spaceEncodings spaceEncodings_ne_nil s.length s (Nat.le_refl _) e he h1

theorem trimSpace_no_trailing (s : GoString) : ¬ endsWithSpace (TrimSpace s) := by
  rintro ⟨e, he, hsuf⟩
  unfold TrimSpace TrimRightSpace at hsuf
  have h1 : e.reverse <+: stripLeading (spaceEncodings.map List.reverse)
      (TrimLeftSpace s).length (TrimLeftSpace s).reverse := by
    have := List.reverse_prefix.2 hsuf
    simpa using this
  exact stripLeading_clean (spaceEncodings.map List.reverse) revEncodings_ne_nil
    (TrimLeftSpace s).length (TrimLeftSpace s).reverse (by simp) e.reverse
    (List.mem_map.2 ⟨e, he, rfl⟩) h1

theorem trimSpace_of_onlySpace (s : GoString) (h : onlySpace s) : TrimSpace s = [] := by
  obtain ⟨pieces, hp, rfl⟩ := h
  have h1 : TrimLeftSpace pieces.flatten = [] :=
    stripLeading_all spaceEncodings spaceEncodings_ne_nil spaceEncodings_free pieces hp _
      (Nat.le_refl _)
  unfold TrimSpace
  rw [h1]
  rfl

theorem onlySpace_of_trimSpace (s : GoString) (h : TrimSpace s = []) : onlySpace s := by
  unfold TrimSpace TrimRightSpace at h
  obtain ⟨ps, hps, hs⟩ := stripLeading_pieces spaceEncodings s.length s
  obtain ⟨qs, hqs, ht⟩ := stripLeading_pieces (spaceEncodings.map List.reverse)
    (TrimLeftSpace s).length (TrimLeftSpace s).reverse
  have h0 : stripLeading (spaceEncodings.map List.reverse)
      (TrimLeftSpace s).length (TrimLeftSpace s).reverse = [] := by
    simpa using h
  rw [h0, List.append_nil] at ht
  have ht2 : TrimLeftSpace s = (qs.map List.reverse).reverse.flatten := by
    have := congrArg List.reverse ht
    rw [List.reverse_reverse, List.reverse_flatten] at this
    exact this
  refine ⟨ps ++ (qs.map List.reverse).reverse, ?_, ?_⟩
  · intro p hp
    rcases List.mem_append.1 hp with h1 | h1
    · exact hps p h1
    · rw [List.mem_reverse, List.mem_map] at h1
      obtain ⟨q, hq, rfl⟩ := h1
      obtain ⟨e, he, rfl⟩ := List.mem_map.1 (hqs q hq)
      simpa using he
  · rw [List.flatten_append, ← ht2]
    exact hs

theorem trimSpace_eq_nil_iff (s : GoString) : TrimSpace s = [] ↔ onlySpace s :=
  ⟨onlySpace_of_trimSpace s, trimSpace_of_onlySpace s⟩

/-! ### Splitting -/

theorem splitParts_cons (sep b : Nat) (s : GoString) :
    splitParts sep (b :: s) =
      if b = sep then ([], (splitParts sep s).1 :: (splitParts sep s).2)
      else (b :: (splitParts sep s).1, (splitParts sep s).2) := rfl

theorem splitParts_length (sep : Nat) (s : GoString) :
    (splitParts sep s).2.length = s.count sep := by
  induction s with
  | nil => rfl
  | cons b s ih =>
    rw [splitParts_cons, List.count_cons]
    by_cases h : b = sep
    · subst h
      simp [ih]
    · simp [h, ih]

theorem splitParts_no_sep (sep : Nat) (s : GoString) :
    sep ∉ (splitParts sep s).1 ∧ ∀ p ∈ (splitParts sep s).2, sep ∉ p := by
  induction s with
  | nil => simp [splitParts]
  | cons b s ih =>
    unfold splitParts
    by_cases h : b = sep
    · subst h
      simp only [if_true]
      refine ⟨by simp, ?_⟩
      intro p hp
      rcases List.mem_cons.1 hp with rfl | hp1
      · exact ih.1
      · exact ih.2 p hp1
    · simp only [h, if_false]
      refine ⟨?_, ih.2⟩
      intro hm
      rcases List.mem_cons.1 hm with hm1 | hm1
      · exact h hm1.symm
      · exact ih.1 hm1

theorem splitParts_join (sep : Nat) (s : GoString) :
    s = (splitParts sep s).1 ++ ((splitParts sep s).2.map (fun p => sep :: p)).flatten := by
  induction s with
  | nil => rfl
  | cons b s ih =>
    unfold splitParts
    by_cases h : b = sep
    · subst h
      simp only [if_true, List.nil_append, List.map_cons, List.flatten_cons, List.cons_append]
      rw [← ih]
    · simp only [h, if_false, List.cons_append]
      rw [← ih]

theorem splitParts_append (sep : Nat) (a t : GoString) (h : sep ∉ a) :
    splitParts sep (a ++ t) = (a ++ (splitParts sep t).1, (splitParts sep t).2) := by
  induction a with
  | nil => rfl
  | cons b a ih =>
    have hb : b ≠ sep := fun hh => h (by simp [hh])
    have ha : sep ∉ a := fun hh => h (List.mem_cons_of_mem _ hh)
    rw [List.cons_append, splitParts_cons, ih ha]
    simp [hb]

end Go

/-! ## `split` -/

theorem split_foldl (parts : List GoString) :
    ∀ acc : List GoString,
      parts.foldl
        (fun out p =>
          let p := Go.TrimSpace p
          if p ≠ [] then out ++ [p] else out) acc
      = acc ++ (parts.map Go.TrimSpace).filter (fun p => p ≠ []) := by
  induction parts with
  | nil => intro acc; simp
  | cons q parts ih =>
    intro acc
    rw [List.foldl_cons, ih]
    by_cases h : Go.TrimSpace q = []
    · simp [h]
    · simp [h]

theorem split_eq_splitSpec (s : GoString) : FbrefPlayersFetch.split s = splitSpec s := by
  unfold FbrefPlayersFetch.split splitSpec
  rw [split_foldl]
  simp

theorem mem_splitSpec (s p : GoString) :
    p ∈ splitSpec s ↔ p ≠ [] ∧ ∃ q ∈ Go.Split s 44, Go.TrimSpace q = p := by
  unfold splitSpec
  simp only [List.mem_filter, List.mem_map, decide_eq_true_eq]
  tauto

theorem onlySpace_nil : onlySpace [] := ⟨[], by simp, rfl⟩

theorem onlySpace_append (a b : GoString) (ha : onlySpace a) (hb : onlySpace b) :
    onlySpace (a ++ b) := by
  obtain ⟨pa, hpa, rfl⟩ := ha
  obtain ⟨pb, hpb, rfl⟩ := hb
  refine ⟨pa ++ pb, ?_, by simp⟩
  intro p hp
  rcases List.mem_append.1 hp with h | h
  · exact hpa p h
  · exact hpb p h

theorem onlyCommasAndSpace_append (a b : GoString) (ha : onlyCommasAndSpace a)
    (hb : onlyCommasAndSpace b) : onlyCommasAndSpace (a ++ b) := by
  obtain ⟨pa, hpa, rfl⟩ := ha
  obtain ⟨pb, hpb, rfl⟩ := hb
  refine ⟨pa ++ pb, ?_, by simp⟩
  intro p hp
  rcases List.mem_append.1 hp with h | h
  · exact hpa p h
  · exact hpb p h

theorem onlyCommasAndSpace_of_onlySpace (a : GoString) (ha : onlySpace a) :
    onlyCommasAndSpace a := by
  obtain ⟨pa, hpa, rfl⟩ := ha
  exact ⟨pa, fun p hp => Or.inr (hpa p hp), rfl⟩

theorem onlyCommasAndSpace_parts (parts : List GoString) (h : ∀ p ∈ parts, onlySpace p) :
    onlyCommasAndSpace ((parts.map (fun p => 44 :: p)).flatten) := by
  induction parts with
  | nil => exact ⟨[], by simp, rfl⟩
  | cons q parts ih =>
    rw [List.map_cons, List.flatten_cons]
    have h1 : onlyCommasAndSpace (44 :: q) := by
      have := onlyCommasAndSpace_append [44] q ⟨[[44]], by simp, rfl⟩
        (onlyCommasAndSpace_of_onlySpace q (h q (List.mem_cons_self _ _)))
      simpa using this
    exact onlyCommasAndSpace_append _ _ h1 (ih (fun p hp => h p (List.mem_cons_of_mem _ hp)))

theorem onlyCommasAndSpace_iff_parts (s : GoString) :
    onlyCommasAndSpace s ↔ ∀ q ∈ Go.Split s 44, onlySpace q := by
  constructor
  · rintro ⟨pieces, hp, rfl⟩
    induction pieces with
    | nil =>
      intro q hq
      simp [Go.Split, Go.splitParts] at hq
      subst hq
      exact onlySpace_nil
    | cons c pieces ih =>
      have ih1 := ih (fun p hp1 => hp p (List.mem_cons_of_mem _ hp1))
      rw [List.flatten_cons]
      rcases hp c (List.mem_cons_self _ _) with hc | hc
      · subst hc
        intro q hq
        simp only [Go.Split, List.singleton_append, Go.splitParts_cons, if_true] at hq
        rcases List.mem_cons.1 hq with rfl | hq1
        · exact onlySpace_nil
        · exact ih1 q hq1
      · intro q hq
        simp only [Go.Split, Go.splitParts_append 44 c _ (Go.spaceEncodings_no_comma c hc)] at hq
        rcases List.mem_cons.1 hq with rfl | hq1
        · refine onlySpace_append _ _ ⟨[c], by simpa using hc, by simp⟩ ?_
          exact ih1 _ (by simp [Go.Split])
        · exact ih1 q (by simp [Go.Split, hq1])
  · intro h
    rw [Go.splitParts_join 44 s]
    refine onlyCommasAndSpace_append _ _ ?_ ?_
    · exact onlyCommasAndSpace_of_onlySpace _ (h _ (by simp [Go.Split]))
    · exact onlyCommasAndSpace_parts _ (fun p hp => h p (by simp [Go.Split, hp]))

theorem split_eq_nil_iff (s : GoString) :
    FbrefPlayersFetch.split s = [] ↔ onlyCommasAndSpace s := by
  rw [split_eq_splitSpec, onlyCommasAndSpace_iff_parts]
  unfold splitSpec
  rw [List.filter_eq_nil_iff]
  constructor
  · intro h q hq
    have := h (Go.TrimSpace q) (List.mem_map.2 ⟨q, hq, rfl⟩)
    exact (Go.trimSpace_eq_nil_iff q).1 (by simpa using this)
  · intro h p hp
    obtain ⟨q, hq, rfl⟩ := List.mem_map.1 hp
    simpa using (Go.trimSpace_eq_nil_iff q).2 (h q hq)

theorem split_token (s p : GoString) (hp : p ∈ FbrefPlayersFetch.split s) :
    p ≠ [] ∧ ¬ startsWithSpace p ∧ ¬ endsWithSpace p ∧ 44 ∉ p := by
  rw [split_eq_splitSpec, mem_splitSpec] at hp
  obtain ⟨hne, q, hq, rfl⟩ := hp
  refine ⟨hne, Go.trimSpace_no_leading q, Go.trimSpace_no_trailing q, ?_⟩
  intro hc
  have hq44 : 44 ∉ q := by
    rcases List.mem_cons.1 hq with rfl | hq1
    · exact (Go.splitParts_no_sep 44 s).1
    · exact (Go.splitParts_no_sep 44 s).2 q hq1
  exact hq44 ((Go.trimSpace_infix q).subset hc)

theorem split_length_le (s : GoString) :
    (FbrefPlayersFetch.split s).length ≤ s.count 44 + 1 := by
  rw [split_eq_splitSpec]
  unfold splitSpec
  refine (List.length_filter_le _ _).trans ?_
  simp [Go.Split, Go.splitParts_length]

/-! ## The standings command -/

namespace FdStandingsFetch

theorem pickMainTable_cons_total (s : Standing) (sts : List Standing) (h : isTotal s.Typ) :
    pickMainTable (s :: sts) = (s, none) := by
  simp [pickMainTable, (Go.equalFold_total s.Typ).2 h]

theorem pickMainTable_cons_other (s : Standing) (sts : List Standing) (h : ¬ isTotal s.Typ) :
    pickMainTable (s :: sts) = pickMainTable sts := by
  have : Go.EqualFold s.Typ (ascii "TOTAL") = false := by
    cases hq : Go.EqualFold s.Typ (ascii "TOTAL") with
    | false => rfl
    | true => exact absurd ((Go.equalFold_total s.Typ).1 hq) h
  simp [pickMainTable, this]

theorem pickMainTable_skip (pre : List Standing) (rest : List Standing)
    (h : ∀ x ∈ pre, ¬ isTotal x.Typ) : pickMainTable (pre ++ rest) = pickMainTable rest := by
  induction pre with
  | nil => rfl
  | cons a pre ih =>
    rw [List.cons_append, pickMainTable_cons_other a _ (h a (List.mem_cons_self _ _))]
    exact ih (fun x hx => h x (List.mem_cons_of_mem _ hx))

theorem exists_first_total (sts : List Standing) (h : ∃ s ∈ sts, isTotal s.Typ) :
    ∃ pre s post, sts = pre ++ s :: post ∧ (∀ x ∈ pre, ¬ isTotal x.Typ) ∧ isTotal s.Typ := by
  induction sts with
  | nil =>
    obtain ⟨s, hs, _⟩ := h
    cases hs
  | cons a sts ih =>
    by_cases ha : isTotal a.Typ
    · exact ⟨[], a, sts, rfl, by simp, ha⟩
    · obtain ⟨s, hs, hst⟩ := h
      have hmem : s ∈ sts := by
        rcases List.mem_cons.1 hs with rfl | hm
        · exact absurd hst ha
        · exact hm
      obtain ⟨pre, s1, post, he, hpre, hs1⟩ := ih ⟨s, hmem, hst⟩
      refine ⟨a :: pre, s1, post, by simp [he], ?_, hs1⟩
      intro x hx
      rcases List.mem_cons.1 hx with rfl | hm
      · exact ha
      · exact hpre x hm

theorem pickMainTable_none (sts : List Standing) (h : ∀ s ∈ sts, ¬ isTotal s.Typ) :
    pickMainTable sts =
      ({ Typ := [], Table := [] }, some (ascii "no TOTAL table in standings")) := by
  have := pickMainTable_skip sts [] h
  simpa [pickMainTable] using this

/-- C1. `pickMainTable` is a first-match search for the type "TOTAL" with
letter case ignored.  If some entry has such a type, the list splits as
`pre ++ s :: post` where no entry of `pre` has it, `s` has it, and the result
is `s` itself (type and table unchanged) with a nil error.  If no entry has
such a type the result carries an error.  An entry returned without error
always has the type "TOTAL", and of two entries of which only the second
has it, the second is returned. -/
theorem pickMainTable_first_match (sts : List Standing) :
    ((∃ s ∈ sts, isTotal s.Typ) →
      ∃ pre s post, sts = pre ++ s :: post ∧ (∀ x ∈ pre, ¬ isTotal x.Typ) ∧
        isTotal s.Typ ∧ pickMainTable sts = (s, none))
    ∧ ((∀ s ∈ sts, ¬ isTotal s.Typ) →
        pickMainTable sts =
          ({ Typ := [], Table := [] }, some (ascii "no TOTAL table in standings")))
    ∧ (∀ s, pickMainTable sts = (s, none) → s ∈ sts ∧ isTotal s.Typ)
    ∧ (∀ a b : Standing, ¬ isTotal a.Typ → isTotal b.Typ →
        pickMainTable [a, b] = (b, none)) := by
  refine ⟨?_, pickMainTable_none sts, ?_, ?_⟩
  · intro h
    obtain ⟨pre, s, post, he, hpre, hs⟩ := exists_first_total sts h
    refine ⟨pre, s, post, he, hpre, hs, ?_⟩
    rw [he, pickMainTable_skip pre _ hpre, pickMainTable_cons_total s post hs]
  · intro s hs
    by_cases h : ∃ x ∈ sts, isTotal x.Typ
    · obtain ⟨pre, s1, post, he, hpre, hs1⟩ := exists_first_total sts h
      rw [he, pickMainTable_skip pre _ hpre, pickMainTable_cons_total s1 post hs1] at hs
      have hh : s1 = s := by
        have := congrArg Prod.fst hs
        simpa using this
      subst hh
      exact ⟨by simp [he], hs1⟩
    · have hn : ∀ x ∈ sts, ¬ isTotal x.Typ := fun x hx hx1 => h ⟨x, hx, hx1⟩
      rw [pickMainTable_none sts hn] at hs
      have := congrArg Prod.snd hs
      simp at this
  · intro a b ha hb
    rw [pickMainTable_cons_other a _ ha, pickMainTable_cons_total b [] hb]

theorem written_map_write (recs : List (List GoString)) :
    written (recs.map Event.write) = recs := by
  induction recs with
  | nil => rfl
  | cons r recs ih => simp [written, ih]

theorem written_of_header_prefix (tr : List Event) (h : [Event.write header] <+: tr) :
    ∃ rest, written tr = header :: rest := by
  obtain ⟨ext, rfl⟩ := h
  exact ⟨written ext, by simp [written]⟩

theorem standings_loop_cons_ok (cfg : Flags) (w : World) (y : GoString) (post : List GoString)
    (tr tr1 : List Event) (h : processSeason cfg w y tr = (tr1, none)) :
    loop cfg w (y :: post) tr = loop cfg w post tr1 := by
  conv => lhs; unfold loop
  rw [h]

theorem standings_loop_cons_abort (cfg : Flags) (w : World) (y : GoString) (post : List GoString)
    (tr tr1 : List Event) (a : Abort) (h : processSeason cfg w y tr = (tr1, some a)) :
    loop cfg w (y :: post) tr = (tr1, some a) := by
  conv => lhs; unfold loop
  rw [h]

theorem standings_loop_append (cfg : Flags) (w : World) (pre more : List GoString) :
    ∀ tr0 tr : List Event, loop cfg w pre tr0 = (tr, none) →
      loop cfg w (pre ++ more) tr0 = loop cfg w more tr := by
  induction pre with
  | nil =>
    intro tr0 tr h
    simp only [loop, Prod.mk.injEq, and_true] at h
    subst h
    rfl
  | cons y pre ih =>
    intro tr0 tr h
    rw [List.cons_append]
    cases hp : processSeason cfg w y tr0 with
    | mk tr1 o =>
      cases o with
      | some a =>
        rw [standings_loop_cons_abort cfg w y pre tr0 tr1 a hp] at h
        simp at h
      | none =>
        rw [standings_loop_cons_ok cfg w y pre tr0 tr1 hp] at h
        rw [standings_loop_cons_ok cfg w y _ tr0 tr1 hp]
        exact ih tr1 tr h

theorem main_dies_fatal (cfg : Flags) (w : World) (pre post : List GoString) (y : GoString)
    (tr tr1 : List Event) (f : Failure) (hkey : cfg.apiKey ≠ [])
    (hsplit : split cfg.seasonsCSV = pre ++ y :: post)
    (hmk : w.mkdirAllErr = false) (hcr : w.createErr = false)
    (hhdr : w.writeErr [] header = false)
    (hpre : loop cfg w pre [Event.write header] = (tr, none))
    (hy : processSeason cfg w y tr = (tr1, some (Abort.fatal f))) :
    main cfg w = (tr1, some (Abort.fatal f)) := by
  have h0 : (split cfg.seasonsCSV).length ≠ 0 := by
    rw [hsplit]; simp
  have hl : loop cfg w (split cfg.seasonsCSV) [Event.write header]
      = (tr1, some (Abort.fatal f)) := by
    rw [hsplit, standings_loop_append cfg w pre (y :: post) _ tr hpre,
      standings_loop_cons_abort cfg w y post tr tr1 _ hy]
  unfold main
  simp only [hkey, if_false, h0, hmk, hcr, hhdr, Bool.false_eq_true, hl]

theorem main_dies_sliceBounds (cfg : Flags) (w : World) (pre post : List GoString)
    (y : GoString) (tr tr1 : List Event) (hkey : cfg.apiKey ≠ [])
    (hsplit : split cfg.seasonsCSV = pre ++ y :: post)
    (hmk : w.mkdirAllErr = false) (hcr : w.createErr = false)
    (hhdr : w.writeErr [] header = false)
    (hpre : loop cfg w pre [Event.write header] = (tr, none))
    (hy : processSeason cfg w y tr = (tr1, some Abort.sliceBounds)) :
    main cfg w = (tr1 ++ [Event.flush], some Abort.sliceBounds) := by
  have h0 : (split cfg.seasonsCSV).length ≠ 0 := by
    rw [hsplit]; simp
  have hl : loop cfg w (split cfg.seasonsCSV) [Event.write header]
      = (tr1, some Abort.sliceBounds) := by
    rw [hsplit, standings_loop_append cfg w pre (y :: post) _ tr hpre,
      standings_loop_cons_abort cfg w y post tr tr1 _ hy]
  unfold main
  simp only [hkey, if_false, h0, hmk, hcr, hhdr, Bool.false_eq_true, hl]

end FdStandingsFetch

namespace FdStandingsFetch

theorem processSeason_unbuilt (cfg : Flags) (w : World) (y : GoString) (tr : List Event)
    (hreq : w.NewRequest (seasonURL cfg y) = false) :
    processSeason cfg w y tr = (tr, some Abort.nilRequest) := by
  unfold processSeason
  simp [hreq]

theorem processSeason_err (cfg : Flags) (w : World) (y : GoString) (tr : List Event)
    (hreq : w.NewRequest (seasonURL cfg y) = true)
    (h : (w.Do tr (seasonURL cfg y) cfg.apiKey).err = true) :
    processSeason cfg w y tr =
      (tr ++ [Event.request (seasonURL cfg y) cfg.apiKey], some (Abort.fatal Failure.fetch)) := by
  unfold processSeason
  simp [hreq, h]

theorem processSeason_rate (cfg : Flags) (w : World) (y : GoString) (tr : List Event)
    (hreq : w.NewRequest (seasonURL cfg y) = true)
    (h : (w.Do tr (seasonURL cfg y) cfg.apiKey).err = false)
    (hc : 429 ≤ (w.Do tr (seasonURL cfg y) cfg.apiKey).code) :
    processSeason cfg w y tr =
      (tr ++ [Event.request (seasonURL cfg y) cfg.apiKey],
        some (Abort.fatal (Failure.rateLimited (w.Do tr (seasonURL cfg y) cfg.apiKey).code))) := by
  unfold processSeason
  simp [hreq, h, hc]

theorem processSeason_bad (cfg : Flags) (w : World) (y : GoString) (tr : List Event)
    (hreq : w.NewRequest (seasonURL cfg y) = true)
    (h : (w.Do tr (seasonURL cfg y) cfg.apiKey).err = false)
    (hc : (w.Do tr (seasonURL cfg y) cfg.apiKey).code < 429)
    (hb : (w.Do tr (seasonURL cfg y) cfg.apiKey).code < 200
      ∨ 300 ≤ (w.Do tr (seasonURL cfg y) cfg.apiKey).code) :
    processSeason cfg w y tr =
      (tr ++ [Event.request (seasonURL cfg y) cfg.apiKey],
        some (Abort.fatal (Failure.badStatus (w.Do tr (seasonURL cfg y) cfg.apiKey).code))) := by
  unfold processSeason
  have h1 : ¬ 429 ≤ (w.Do tr (seasonURL cfg y) cfg.apiKey).code := by omega
  simp only [hreq, Bool.true_eq_false, if_false, h, ge_iff_le, h1, hb, if_true]
  simp

theorem writeRows_not_fetchFailure (w : World) (label : GoString) (rows : List TableRow) :
    ∀ tr : List Event, fetchFailure (writeRows w label rows tr).2 = false := by
  induction rows with
  | nil => intro tr; rfl
  | cons row rows ih =>
    intro tr
    unfold writeRows
    simp only
    split
    · rfl
    · exact ih _

theorem processSeason_accepted (cfg : Flags) (w : World) (y : GoString) (tr : List Event)
    (hreq : w.NewRequest (seasonURL cfg y) = true)
    (h : accepted (w.Do tr (seasonURL cfg y) cfg.apiKey)) :
    processSeason cfg w y tr =
      match w.Unmarshal (w.Do tr (seasonURL cfg y) cfg.apiKey).body with
      | none =>
        (tr ++ [Event.request (seasonURL cfg y) cfg.apiKey], some (Abort.fatal Failure.json))
      | some sr =>
        match seasonStr y with
        | none => (tr ++ [Event.request (seasonURL cfg y) cfg.apiKey], some Abort.sliceBounds)
        | some label =>
          match pickMainTable sr.Standings with
          | (_, some _) =>
            (tr ++ [Event.request (seasonURL cfg y) cfg.apiKey],
              some (Abort.fatal Failure.standingsParse))
          | (mainTable, none) =>
            writeRows w label mainTable.Table
              (tr ++ [Event.request (seasonURL cfg y) cfg.apiKey]) := by
  obtain ⟨h1, h2, h3⟩ := h
  unfold processSeason
  have h4 : ¬ 429 ≤ (w.Do tr (seasonURL cfg y) cfg.apiKey).code := by omega
  have h5 : ¬ ((w.Do tr (seasonURL cfg y) cfg.apiKey).code < 200
      ∨ 300 ≤ (w.Do tr (seasonURL cfg y) cfg.apiKey).code) := by omega
  simp only [hreq, Bool.true_eq_false, if_false, h1, ge_iff_le, h4, h5]
  simp

theorem processSeason_accepted_outcome (cfg : Flags) (w : World) (y : GoString)
    (tr : List Event) (hreq : w.NewRequest (seasonURL cfg y) = true)
    (h : accepted (w.Do tr (seasonURL cfg y) cfg.apiKey)) :
    fetchFailure (processSeason cfg w y tr).2 = false := by
  rw [processSeason_accepted cfg w y tr hreq h]
  split
  · rfl
  · split
    · rfl
    · split
      · rfl
      · exact writeRows_not_fetchFailure _ _ _ _

theorem processSeason_rejected (cfg : Flags) (w : World) (y : GoString) (tr : List Event)
    (hreq : w.NewRequest (seasonURL cfg y) = true)
    (h : ¬ accepted (w.Do tr (seasonURL cfg y) cfg.apiKey)) :
    (processSeason cfg w y tr).1 = tr ++ [Event.request (seasonURL cfg y) cfg.apiKey] ∧
    fetchFailure (processSeason cfg w y tr).2 = true := by
  cases herr : (w.Do tr (seasonURL cfg y) cfg.apiKey).err with
  | true => rw [processSeason_err cfg w y tr hreq herr]; exact ⟨rfl, rfl⟩
  | false =>
    by_cases hc : 429 ≤ (w.Do tr (seasonURL cfg y) cfg.apiKey).code
    · rw [processSeason_rate cfg w y tr hreq herr hc]; exact ⟨rfl, rfl⟩
    · have hb : (w.Do tr (seasonURL cfg y) cfg.apiKey).code < 200
          ∨ 300 ≤ (w.Do tr (seasonURL cfg y) cfg.apiKey).code := by
        by_contra hn
        exact h ⟨herr, by omega, by omega⟩
      rw [processSeason_bad cfg w y tr hreq herr (by omega) hb]; exact ⟨rfl, rfl⟩

theorem loop_abort (cfg : Flags) (w : World) (y : GoString) (rest : List GoString)
    (tr : List Event) (a : Abort) (h : (processSeason cfg w y tr).2 = some a) :
    loop cfg w (y :: rest) tr = ((processSeason cfg w y tr).1, some a) := by
  unfold loop
  split
  · next tr1 a1 heq =>
    rw [heq] at h
    simp only [Option.some.injEq] at h
    rw [heq, h]
  · next tr1 heq =>
    rw [heq] at h
    simp at h

end FdStandingsFetch

/-! ## The player command -/

namespace FbrefPlayersFetch

variable {Table Rows Joined : Type}

theorem parseJoinWrite_shape (cfg : Flags) (w : World Table Rows Joined) (i : Nat)
    (seasonStr : GoString) (stdTable shoTable : Table) (st : St) :
    ∃ recs n,
      ((parseJoinWrite cfg w i seasonStr stdTable shoTable st).2 = none ∧
        (parseJoinWrite cfg w i seasonStr stdTable shoTable st).1.trace =
          st.trace ++ [Event.rows i recs, Event.flush i, Event.report i n])
      ∨ ∃ f, (parseJoinWrite cfg w i seasonStr stdTable shoTable st).2 = some f ∧
          2 ≤ eventsBefore f ∧
          (parseJoinWrite cfg w i seasonStr stdTable shoTable st).1.trace =
            st.trace ++
              ([Event.rows i recs, Event.flush i, Event.report i n]).take (eventsBefore f - 2) := by
  unfold parseJoinWrite
  split
  · exact ⟨[], 0, Or.inr ⟨Failure.parseStandard, rfl, by decide, by simp [die, eventsBefore]⟩⟩
  · next stdRows _ =>
    split
    · exact ⟨[], 0, Or.inr ⟨Failure.parseShooting, rfl, by decide, by simp [die, eventsBefore]⟩⟩
    · next shoRows _ =>
      simp only
      refine ⟨(w.WriteBacktesterRows st.trace (w.JoinStandardShooting seasonStr stdRows shoRows
        cfg.destLeague cfg.fromLeague)).records,
        (w.WriteBacktesterRows st.trace (w.JoinStandardShooting seasonStr stdRows shoRows
        cfg.destLeague cfg.fromLeague)).wrote, ?_⟩
      split
      · exact Or.inr ⟨Failure.csvWrite, rfl, by decide, by simp [die, St.log, eventsBefore]⟩
      · split
        · exact Or.inr ⟨Failure.csvFlush, rfl, by decide, by simp [die, St.log, eventsBefore]⟩
        · exact Or.inl ⟨rfl, by simp [St.log]⟩

theorem processSeason_shape (cfg : Flags) (w : World Table Rows Joined) (i : Nat)
    (ys : GoString) (st : St) :
    ∃ recs n,
      ((processSeason cfg w i ys st).2 = none ∧
        (processSeason cfg w i ys st).1.trace =
          st.trace ++ seasonBlock i (seasonURLs w ys).1 (seasonURLs w ys).2 recs n)
      ∨ ∃ f, (processSeason cfg w i ys st).2 = some f ∧
          (processSeason cfg w i ys st).1.trace =
            st.trace ++
              (seasonBlock i (seasonURLs w ys).1 (seasonURLs w ys).2 recs n).take
                (eventsBefore f) := by
  unfold processSeason
  cases hA : Go.Atoi (Go.TrimSpace ys) with
  | none =>
    exact ⟨[], 0, Or.inr ⟨Failure.badSeasonYear, rfl, by simp [die, eventsBefore]⟩⟩
  | some yr =>
    simp only [seasonURLs, hA]
    split
    · exact ⟨[], 0, Or.inr ⟨Failure.fetchStandard, rfl,
        by simp [die, St.log, eventsBefore, seasonBlock]⟩⟩
    · split
      · exact ⟨[], 0, Or.inr ⟨Failure.fetchShooting, rfl,
          by simp [die, St.log, eventsBefore, seasonBlock]⟩⟩
      · split
        · exact ⟨[], 0, Or.inr ⟨Failure.extractStandard, rfl,
            by simp [die, St.log, eventsBefore, seasonBlock]⟩⟩
        · next stdTable _ =>
          split
          · exact ⟨[], 0, Or.inr ⟨Failure.extractShooting, rfl,
              by simp [die, St.log, eventsBefore, seasonBlock]⟩⟩
          · next shoTable _ =>
            obtain ⟨recs, n, h⟩ := parseJoinWrite_shape cfg w i (w.SeasonLabel yr) stdTable
              shoTable ((st.log (Event.request i (w.StandardURL yr))).log
                (Event.request i (w.ShootingURL yr)))
            refine ⟨recs, n, ?_⟩
            rcases h with ⟨h1, h2⟩ | ⟨f, h1, h2, h3⟩
            · left
              refine ⟨h1, ?_⟩
              rw [h2]
              simp [St.log, seasonBlock]
            · right
              refine ⟨f, h1, ?_⟩
              rw [h3]
              obtain ⟨k, hk⟩ : ∃ k, eventsBefore f = k + 2 := ⟨eventsBefore f - 2, by omega⟩
              rw [hk]
              simp [St.log, seasonBlock]

theorem loop_cons_abort (cfg : Flags) (w : World Table Rows Joined) (i : Nat) (ys : GoString)
    (rest : List GoString) (st : St) (f : Failure)
    (h : (processSeason cfg w i ys st).2 = some f) :
    loop cfg w i (ys :: rest) st = ((processSeason cfg w i ys st).1, some f) := by
  unfold loop
  split
  · next st1 f1 heq =>
    rw [heq] at h
    simp only [Option.some.injEq] at h
    rw [heq, h]
  · next st1 heq =>
    rw [heq] at h
    simp at h

theorem loop_cons_ok (cfg : Flags) (w : World Table Rows Joined) (i : Nat) (ys : GoString)
    (rest : List GoString) (st : St) (h : (processSeason cfg w i ys st).2 = none) :
    loop cfg w i (ys :: rest) st = loop cfg w (i + 1) rest (processSeason cfg w i ys st).1 := by
  conv => lhs; unfold loop
  split
  · next st1 f1 heq =>
    rw [heq] at h
    simp at h
  · next st1 heq =>
    rw [heq]

theorem loop_append (cfg : Flags) (w : World Table Rows Joined) (pre more : List GoString) :
    ∀ (i : Nat) (st st1 : St), loop cfg w i pre st = (st1, none) →
      loop cfg w i (pre ++ more) st = loop cfg w (i + pre.length) more st1 := by
  induction pre with
  | nil =>
    intro i st st1 h
    simp only [loop, Prod.mk.injEq, and_true] at h
    subst h
    simp
  | cons y pre ih =>
    intro i st st1 h
    cases ho : (processSeason cfg w i y st).2 with
    | some f =>
      rw [loop_cons_abort cfg w i y pre st f ho] at h
      simp at h
    | none =>
      rw [loop_cons_ok cfg w i y pre st ho] at h
      rw [List.cons_append, loop_cons_ok cfg w i y _ st ho, ih _ _ _ h]
      simp [Nat.add_assoc, Nat.add_comm 1]

/-! ### The URLs requested -/

theorem requested_append (a b : List Event) : requested (a ++ b) = requested a ++ requested b := by
  induction a with
  | nil => rfl
  | cons e a ih => cases e <;> simp [requested, ih]

theorem requested_block_take (i : Nat) (u1 u2 : GoString) (recs : List (List GoString))
    (n : Int) (m : Nat) :
    requested ((seasonBlock i u1 u2 recs n).take m) = [u1, u2].take m := by
  match m with
  | 0 => rfl
  | 1 => rfl
  | 2 => rfl
  | 3 => rfl
  | 4 => rfl
  | k + 5 => simp [seasonBlock, requested]

theorem requested_block (i : Nat) (u1 u2 : GoString) (recs : List (List GoString)) (n : Int) :
    requested (seasonBlock i u1 u2 recs n) = [u1, u2] := rfl

theorem plannedURLs_cons (w : World Table Rows Joined) (ys : GoString) (rest : List GoString) :
    plannedURLs w (ys :: rest) =
      (match Go.Atoi (Go.TrimSpace ys) with
        | some _ => [(seasonURLs w ys).1, (seasonURLs w ys).2]
        | none => []) ++ plannedURLs w rest := by
  unfold seasonURLs
  conv => lhs; unfold plannedURLs
  cases Go.Atoi (Go.TrimSpace ys) <;> simp

theorem processSeason_none_year (cfg : Flags) (w : World Table Rows Joined) (i : Nat)
    (ys : GoString) (st : St) (h : Go.Atoi (Go.TrimSpace ys) = none) :
    processSeason cfg w i ys st = (st, some Failure.badSeasonYear) := by
  unfold processSeason
  simp [h, die]

theorem loop_requested (cfg : Flags) (w : World Table Rows Joined) (years : List GoString) :
    ∀ (i : Nat) (st : St), ∃ p, p <+: plannedURLs w years ∧
      requested (loop cfg w i years st).1.trace = requested st.trace ++ p := by
  induction years with
  | nil => intro i st; exact ⟨[], List.nil_prefix, by simp [loop]⟩
  | cons ys rest ih =>
    intro i st
    cases hA : Go.Atoi (Go.TrimSpace ys) with
    | none =>
      have hp := processSeason_none_year cfg w i ys st hA
      rw [loop_cons_abort cfg w i ys rest st Failure.badSeasonYear (by rw [hp]), hp]
      exact ⟨[], List.nil_prefix, by simp⟩
    | some yr =>
      rw [plannedURLs_cons, hA]
      obtain ⟨recs, n, h⟩ := processSeason_shape cfg w i ys st
      rcases h with ⟨h1, h2⟩ | ⟨f, h1, h2⟩
      · rw [loop_cons_ok cfg w i ys rest st h1]
        obtain ⟨p, hp1, hp2⟩ := ih (i + 1) (processSeason cfg w i ys st).1
        refine ⟨[(seasonURLs w ys).1, (seasonURLs w ys).2] ++ p, ?_, ?_⟩
        · exact (List.prefix_append_right_inj _).2 hp1
        · rw [hp2, h2, requested_append, requested_block]
          simp
      · rw [loop_cons_abort cfg w i ys rest st f h1]
        refine ⟨[(seasonURLs w ys).1, (seasonURLs w ys).2].take (eventsBefore f), ?_, ?_⟩
        · exact (List.take_prefix _ _).trans (List.prefix_append _ _)
        · simp only
          rw [h2, requested_append, requested_block_take]

/-! ### The order of the events -/

theorem sequential_snoc (tr : List Event) (e : Event) (h : Sequential tr)
    (he : ∀ i url, e = Event.request (i + 1) url →
      ∃ recs, List.Sublist [Event.rows i recs, Event.flush i] tr) :
    Sequential (tr ++ [e]) := by
  intro i url before after hsplit
  rcases List.eq_nil_or_concat after with rfl | ⟨after1, x, rfl⟩
  · obtain ⟨h1, h2⟩ := List.append_inj' hsplit (by simp)
    subst h1
    simp only [List.cons.injEq, and_true] at h2
    exact he i url h2
  · rw [List.concat_eq_append] at hsplit
    have h3 : tr ++ [e] = (before ++ Event.request (i + 1) url :: after1) ++ [x] := by
      rw [hsplit]; simp
    obtain ⟨h1, _⟩ := List.append_inj' h3 (by simp)
    exact h i url before after1 h1

theorem sequential_append (evs : List Event) :
    ∀ tr : List Event, Sequential tr →
      (∀ e ∈ evs, ∀ i url, e = Event.request (i + 1) url →
        ∃ recs, List.Sublist [Event.rows i recs, Event.flush i] tr) →
      Sequential (tr ++ evs) := by
  induction evs with
  | nil => intro tr h _; simpa using h
  | cons e evs ih =>
    intro tr h hev
    have h1 : Sequential (tr ++ [e]) :=
      sequential_snoc tr e h (hev e (List.mem_cons_self _ _))
    have h2 := ih (tr ++ [e]) h1 (by
      intro x hx i url hxe
      obtain ⟨recs, hr⟩ := hev x (List.mem_cons_of_mem _ hx) i url hxe
      exact ⟨recs, List.sublist_append_of_sublist_left hr⟩)
    simpa using h2

theorem mem_seasonBlock_season (i : Nat) (u1 u2 : GoString) (recs : List (List GoString))
    (n : Int) (e : Event) (he : e ∈ seasonBlock i u1 u2 recs n) : e.season = some i := by
  simp only [seasonBlock, List.mem_cons, List.mem_singleton, List.not_mem_nil, or_false] at he
  rcases he with rfl | rfl | rfl | rfl | rfl <;> rfl

theorem processSeason_sequential (cfg : Flags) (w : World Table Rows Joined) (i : Nat)
    (ys : GoString) (st : St) (h : Sequential st.trace)
    (hlast : ∀ j, i = j + 1 →
      ∃ recs, List.Sublist [Event.rows j recs, Event.flush j] st.trace) :
    Sequential (processSeason cfg w i ys st).1.trace ∧
    ((processSeason cfg w i ys st).2 = none →
      ∃ recs, List.Sublist [Event.rows i recs, Event.flush i]
        (processSeason cfg w i ys st).1.trace) := by
  have key : ∀ m recs n, Sequential
      (st.trace ++ (seasonBlock i (seasonURLs w ys).1 (seasonURLs w ys).2 recs n).take m) := by
    intro m recs n
    refine sequential_append _ _ h ?_
    intro e he j url hej
    have hs := mem_seasonBlock_season _ _ _ _ _ _ (List.mem_of_mem_take he)
    rw [hej] at hs
    simp only [Event.season, Option.some.injEq] at hs
    exact hlast j hs.symm
  obtain ⟨recs, n, hc⟩ := processSeason_shape cfg w i ys st
  rcases hc with ⟨h1, h2⟩ | ⟨f, h1, h2⟩
  · constructor
    · rw [h2]
      have := key 5 recs n
      simpa [seasonBlock] using this
    · intro _
      refine ⟨recs, ?_⟩
      rw [h2]
      refine List.sublist_append_of_sublist_right ?_
      simp [seasonBlock]
  · constructor
    · rw [h2]; exact key _ recs n
    · intro hn
      rw [h1] at hn
      simp at hn

theorem loop_sequential (cfg : Flags) (w : World Table Rows Joined) (years : List GoString) :
    ∀ (i : Nat) (st : St), Sequential st.trace →
      (∀ j, i = j + 1 → ∃ recs, List.Sublist [Event.rows j recs, Event.flush j] st.trace) →
      Sequential (loop cfg w i years st).1.trace := by
  induction years with
  | nil => intro i st h _; simpa [loop] using h
  | cons ys rest ih =>
    intro i st h hlast
    obtain ⟨hs, hnext⟩ := processSeason_sequential cfg w i ys st h hlast
    cases ho : (processSeason cfg w i ys st).2 with
    | some f =>
      rw [loop_cons_abort cfg w i ys rest st f ho]
      exact hs
    | none =>
      rw [loop_cons_ok cfg w i ys rest st ho]
      refine ih (i + 1) _ hs ?_
      intro j hj
      have : i = j := by omega
      subst this
      exact hnext ho

/-! ### The seasons of the events -/

theorem processSeason_seasons (cfg : Flags) (w : World Table Rows Joined) (i : Nat)
    (ys : GoString) (st : St) :
    ∃ evs, (processSeason cfg w i ys st).1.trace = st.trace ++ evs ∧
      ∀ e ∈ evs, e.season = some i := by
  obtain ⟨recs, n, hc⟩ := processSeason_shape cfg w i ys st
  rcases hc with ⟨_, h2⟩ | ⟨f, _, h2⟩
  · exact ⟨_, h2, fun e he => mem_seasonBlock_season _ _ _ _ _ _ he⟩
  · exact ⟨_, h2, fun e he => mem_seasonBlock_season _ _ _ _ _ _ (List.mem_of_mem_take he)⟩

theorem loop_seasons (cfg : Flags) (w : World Table Rows Joined) (years : List GoString) :
    ∀ (i : Nat) (st : St), ∃ evs, (loop cfg w i years st).1.trace = st.trace ++ evs ∧
      ∀ e ∈ evs, ∃ j, e.season = some j ∧ i ≤ j ∧ j < i + years.length := by
  induction years with
  | nil => intro i st; exact ⟨[], by simp [loop], by simp⟩
  | cons ys rest ih =>
    intro i st
    obtain ⟨evs, h1, h2⟩ := processSeason_seasons cfg w i ys st
    have hev : ∀ e ∈ evs, ∃ j, e.season = some j ∧ i ≤ j ∧ j < i + (ys :: rest).length :=
      fun e he => ⟨i, h2 e he, Nat.le_refl _, by simp⟩
    cases ho : (processSeason cfg w i ys st).2 with
    | some f =>
      rw [loop_cons_abort cfg w i ys rest st f ho]
      exact ⟨evs, h1, hev⟩
    | none =>
      rw [loop_cons_ok cfg w i ys rest st ho]
      obtain ⟨evs2, h3, h4⟩ := ih (i + 1) (processSeason cfg w i ys st).1
      refine ⟨evs ++ evs2, by rw [h3, h1, List.append_assoc], ?_⟩
      intro e he
      rcases List.mem_append.1 he with he1 | he2
      · exact hev e he1
      · obtain ⟨j, hj1, hj2, hj3⟩ := h4 e he2
        exact ⟨j, hj1, by omega, by simp only [List.length_cons]; omega⟩

theorem sequential_nil : Sequential [] := by
  intro i url before after h
  cases before <;> simp at h

theorem sequential_header : Sequential [Event.header] := by
  have := sequential_snoc [] Event.header sequential_nil (by intro i url h; cases h)
  simpa using this

theorem main_cases (cfg : Flags) (w : World Table Rows Joined) :
    (main cfg w).1 = [] ∨
    (main cfg w).1 =
      (loop cfg w 0 (split cfg.seasonsCSV) { trace := [Event.header], totalRows := 0 }).1.trace ∨
    ∃ t, (main cfg w).1 =
      (loop cfg w 0 (split cfg.seasonsCSV) { trace := [Event.header], totalRows := 0 }).1.trace
        ++ [Event.done t, Event.deferredFlush] := by
  unfold main
  simp only
  split
  · left; rfl
  · split
    · left; rfl
    · split
      · left; rfl
      · split
        · next st f heq => right; left; rw [heq]
        · next st heq => right; right; exact ⟨st.totalRows, by rw [heq]⟩

/-- C5. The player command works through the seasons one after the other.
The URLs it requests, in order, are a prefix of the list made, for each
season token in the order of the season list, of the standard URL and then
the shooting URL of its year.  Whenever a request of the season at position
`i + 1` is issued, the rows of the season at position `i` have been written
and the writer has been flushed after that, earlier in the run. -/
theorem seasons_in_sequence (cfg : Flags) (w : World Table Rows Joined) :
    requested (main cfg w).1 <+: plannedURLs w (split cfg.seasonsCSV)
    ∧ ∀ i url before after,
        (main cfg w).1 = before ++ Event.request (i + 1) url :: after →
        ∃ recs, List.Sublist [Event.rows i recs, Event.flush i] before := by
  have hseq : Sequential
      (loop cfg w 0 (split cfg.seasonsCSV) { trace := [Event.header], totalRows := 0 }).1.trace :=
    loop_sequential cfg w _ 0 _ sequential_header (by intro j hj; omega)
  obtain ⟨p, hp1, hp2⟩ := loop_requested cfg w (split cfg.seasonsCSV) 0
    { trace := [Event.header], totalRows := 0 }
  have hp3 : requested
      (loop cfg w 0 (split cfg.seasonsCSV) { trace := [Event.header], totalRows := 0 }).1.trace
      = p := by
    rw [hp2]; rfl
  rcases main_cases cfg w with h | h | ⟨t, h⟩
  · rw [h]
    exact ⟨List.nil_prefix, sequential_nil⟩
  · rw [h, hp3]
    exact ⟨hp1, hseq⟩
  · rw [h]
    constructor
    · rw [requested_append, hp3]
      simpa [requested] using hp1
    · refine sequential_append _ _ hseq ?_
      intro e he i url hei
      subst hei
      simp at he

/-! ### A failure ends the run -/

theorem main_of_loop (cfg : Flags) (w : World Table Rows Joined)
    (hne : split cfg.seasonsCSV ≠ []) (hmk : w.mkdirAllErr = false)
    (hcr : w.createErr = false) :
    main cfg w =
      match loop cfg w 0 (split cfg.seasonsCSV) { trace := [Event.header], totalRows := 0 } with
      | (st, some f) => (st.trace, some f)
      | (st, none) => (st.trace ++ [Event.done st.totalRows, Event.deferredFlush], none) := by
  unfold main
  have h0 : (split cfg.seasonsCSV).length ≠ 0 := by
    intro h
    exact hne (List.length_eq_zero.1 h)
  simp [h0, hmk, hcr]

theorem rejected_iff (r : FetchResult) : rejected r = true ↔ ¬ accepted r := by
  unfold rejected accepted
  cases h : r.err with
  | true => simp
  | false => simp; omega

theorem processSeason_std_rejected (cfg : Flags) (w : World Table Rows Joined) (i : Nat)
    (ys : GoString) (st : St) (yr : Int) (hyr : Go.Atoi (Go.TrimSpace ys) = some yr)
    (h : ¬ accepted (w.Get st.trace (w.StandardURL yr))) :
    processSeason cfg w i ys st =
      ({ st with trace := st.trace ++ [Event.request i (w.StandardURL yr)] },
        some Failure.fetchStandard) := by
  unfold processSeason
  simp [hyr, (rejected_iff _).2 h, die, St.log]

theorem processSeason_sho_rejected (cfg : Flags) (w : World Table Rows Joined) (i : Nat)
    (ys : GoString) (st : St) (yr : Int) (hyr : Go.Atoi (Go.TrimSpace ys) = some yr)
    (h1 : accepted (w.Get st.trace (w.StandardURL yr)))
    (h2 : ¬ accepted (w.Get (st.trace ++ [Event.request i (w.StandardURL yr)])
      (w.ShootingURL yr))) :
    processSeason cfg w i ys st =
      ({ st with trace := st.trace ++
          [Event.request i (w.StandardURL yr), Event.request i (w.ShootingURL yr)] },
        some Failure.fetchShooting) := by
  have hr1 : rejected (w.Get st.trace (w.StandardURL yr)) = false := by
    cases hq : rejected (w.Get st.trace (w.StandardURL yr)) with
    | false => rfl
    | true => exact absurd h1 ((rejected_iff _).1 hq)
  unfold processSeason
  simp [hyr, hr1, St.log, (rejected_iff _).2 h2, die]

theorem processSeason_fetched (cfg : Flags) (w : World Table Rows Joined) (i : Nat)
    (ys : GoString) (st : St) (yr : Int) (hyr : Go.Atoi (Go.TrimSpace ys) = some yr)
    (h1 : accepted (w.Get st.trace (w.StandardURL yr)))
    (h2 : accepted (w.Get (st.trace ++ [Event.request i (w.StandardURL yr)])
      (w.ShootingURL yr))) :
    processSeason cfg w i ys st =
      match w.ExtractTable (w.Get st.trace (w.StandardURL yr)).body (ascii "stats_standard") with
      | none =>
        ({ st with trace := st.trace ++
            [Event.request i (w.StandardURL yr), Event.request i (w.ShootingURL yr)] },
          some Failure.extractStandard)
      | some stdTable =>
        match w.ExtractTable
          (w.Get (st.trace ++ [Event.request i (w.StandardURL yr)]) (w.ShootingURL yr)).body
          (ascii "stats_shooting") with
        | none =>
          ({ st with trace := st.trace ++
              [Event.request i (w.StandardURL yr), Event.request i (w.ShootingURL yr)] },
            some Failure.extractShooting)
        | some shoTable =>
          parseJoinWrite cfg w i (w.SeasonLabel yr) stdTable shoTable
            { st with trace := st.trace ++
              [Event.request i (w.StandardURL yr), Event.request i (w.ShootingURL yr)] } := by
  have hr1 : rejected (w.Get st.trace (w.StandardURL yr)) = false := by
    cases hq : rejected (w.Get st.trace (w.StandardURL yr)) with
    | false => rfl
    | true => exact absurd h1 ((rejected_iff _).1 hq)
  have hr2 : rejected (w.Get (st.trace ++ [Event.request i (w.StandardURL yr)])
      (w.ShootingURL yr)) = false := by
    cases hq : rejected (w.Get (st.trace ++ [Event.request i (w.StandardURL yr)])
      (w.ShootingURL yr)) with
    | false => rfl
    | true => exact absurd h2 ((rejected_iff _).1 hq)
  unfold processSeason
  simp only [hyr, hr1, St.log, hr2, die, List.append_assoc, List.singleton_append]
  rfl

theorem parseJoinWrite_outcome (cfg : Flags) (w : World Table Rows Joined) (i : Nat)
    (seasonStr : GoString) (stdTable shoTable : Table) (st : St) :
    (parseJoinWrite cfg w i seasonStr stdTable shoTable st).2 ≠ some Failure.fetchStandard ∧
    (parseJoinWrite cfg w i seasonStr stdTable shoTable st).2 ≠ some Failure.fetchShooting := by
  unfold parseJoinWrite
  split
  · simp [die]
  · split
    · simp [die]
    · simp only
      split
      · simp [die]
      · split
        · simp [die]
        · simp

theorem processSeason_fetched_outcome (cfg : Flags) (w : World Table Rows Joined) (i : Nat)
    (ys : GoString) (st : St) (yr : Int) (hyr : Go.Atoi (Go.TrimSpace ys) = some yr)
    (h1 : accepted (w.Get st.trace (w.StandardURL yr)))
    (h2 : accepted (w.Get (st.trace ++ [Event.request i (w.StandardURL yr)])
      (w.ShootingURL yr))) :
    (processSeason cfg w i ys st).2 ≠ some Failure.fetchStandard ∧
    (processSeason cfg w i ys st).2 ≠ some Failure.fetchShooting := by
  rw [processSeason_fetched cfg w i ys st yr hyr h1 h2]
  split
  · simp
  · split
    · simp
    · exact parseJoinWrite_outcome _ _ _ _ _ _ _

theorem main_dies_at (cfg : Flags) (w : World Table Rows Joined)
    (pre post : List GoString) (y : GoString) (st1 st2 : St) (f : Failure)
    (hsplit : split cfg.seasonsCSV = pre ++ y :: post)
    (hmk : w.mkdirAllErr = false) (hcr : w.createErr = false)
    (hpre : loop cfg w 0 pre { trace := [Event.header], totalRows := 0 } = (st1, none))
    (hy : processSeason cfg w pre.length y st1 = (st2, some f)) :
    main cfg w = (st2.trace, some f) := by
  rw [main_of_loop cfg w (by rw [hsplit]; simp) hmk hcr, hsplit,
    loop_append cfg w pre (y :: post) 0 _ st1 hpre, Nat.zero_add,
    loop_cons_abort cfg w pre.length y post st1 f (by rw [hy]), hy]

/-- C4. In both commands a response goes on to further processing exactly
when the fetch returned no error and the status code is at least 200 and
below 300.  In the standings command, for a request that was built and sent,
the outcome of the season is a fetch or status failure exactly when the
response is not accepted, and then the run ends with the request as its last
event.  In the player command the run dies
with the fetch message of the standard page exactly when its response is not
accepted, and with the fetch message of the shooting page exactly when the
standard response is accepted and the shooting response is not; in both
cases the request just made is the last event of the run: it is not issued
again, and no row of the season is written.  The same holds of the whole
program: when the seasons before are processed without failure, `main` ends
with that request as its last event. -/
theorem response_accepted_iff_2xx
    (cfgS : FdStandingsFetch.Flags) (wS : FdStandingsFetch.World) (y : GoString)
    (rest : List GoString) (tr : List FdStandingsFetch.Event)
    (cfg : Flags) (w : World Table Rows Joined) (i : Nat) (ys : GoString)
    (more : List GoString) (st : St) (yr : Int)
    (hreq : wS.NewRequest (FdStandingsFetch.seasonURL cfgS y) = true)
    (hyr : Go.Atoi (Go.TrimSpace ys) = some yr) :
    (FdStandingsFetch.accepted (wS.Do tr (FdStandingsFetch.seasonURL cfgS y) cfgS.apiKey) ↔
      FdStandingsFetch.fetchFailure (FdStandingsFetch.processSeason cfgS wS y tr).2 = false)
    ∧ (¬ FdStandingsFetch.accepted (wS.Do tr (FdStandingsFetch.seasonURL cfgS y) cfgS.apiKey) →
        ∃ a, FdStandingsFetch.loop cfgS wS (y :: rest) tr =
          (tr ++ [FdStandingsFetch.Event.request (FdStandingsFetch.seasonURL cfgS y) cfgS.apiKey],
            some a))
    ∧ (accepted (w.Get st.trace (w.StandardURL yr)) ↔
        (processSeason cfg w i ys st).2 ≠ some Failure.fetchStandard)
    ∧ (¬ accepted (w.Get st.trace (w.StandardURL yr)) →
        loop cfg w i (ys :: more) st =
          ({ st with trace := st.trace ++ [Event.request i (w.StandardURL yr)] },
            some Failure.fetchStandard))
    ∧ (accepted (w.Get st.trace (w.StandardURL yr)) →
        (accepted (w.Get (st.trace ++ [Event.request i (w.StandardURL yr)]) (w.ShootingURL yr)) ↔
          (processSeason cfg w i ys st).2 ≠ some Failure.fetchShooting))
    ∧ (accepted (w.Get st.trace (w.StandardURL yr)) →
        ¬ accepted (w.Get (st.trace ++ [Event.request i (w.StandardURL yr)]) (w.ShootingURL yr)) →
        loop cfg w i (ys :: more) st =
          ({ st with trace := st.trace ++
              [Event.request i (w.StandardURL yr), Event.request i (w.ShootingURL yr)] },
            some Failure.fetchShooting))
    ∧ (¬ FdStandingsFetch.accepted (wS.Do tr (FdStandingsFetch.seasonURL cfgS y) cfgS.apiKey) →
        ∀ pre : List GoString, cfgS.apiKey ≠ [] →
        FdStandingsFetch.split cfgS.seasonsCSV = pre ++ y :: rest →
        wS.mkdirAllErr = false → wS.createErr = false →
        wS.writeErr [] FdStandingsFetch.header = false →
        FdStandingsFetch.loop cfgS wS pre [FdStandingsFetch.Event.write FdStandingsFetch.header]
          = (tr, none) →
        ∃ f, FdStandingsFetch.main cfgS wS =
          (tr ++ [FdStandingsFetch.Event.request (FdStandingsFetch.seasonURL cfgS y) cfgS.apiKey],
            some (FdStandingsFetch.Abort.fatal f)))
    ∧ (∀ pre : List GoString, split cfg.seasonsCSV = pre ++ ys :: more →
        w.mkdirAllErr = false → w.createErr = false → i = pre.length →
        loop cfg w 0 pre { trace := [Event.header], totalRows := 0 } = (st, none) →
        (¬ accepted (w.Get st.trace (w.StandardURL yr)) →
          main cfg w =
            (st.trace ++ [Event.request i (w.StandardURL yr)], some Failure.fetchStandard))
        ∧ (accepted (w.Get st.trace (w.StandardURL yr)) →
          ¬ accepted (w.Get (st.trace ++ [Event.request i (w.StandardURL yr)])
            (w.ShootingURL yr)) →
          main cfg w =
            (st.trace ++
              [Event.request i (w.StandardURL yr), Event.request i (w.ShootingURL yr)],
              some Failure.fetchShooting))) := by
  refine ⟨?_, ?_, ?_, ?_, ?_, ?_, ?_, ?_⟩
  · constructor
    · exact FdStandingsFetch.processSeason_accepted_outcome cfgS wS y tr hreq
    · intro h
      by_contra hn
      have := (FdStandingsFetch.processSeason_rejected cfgS wS y tr hreq hn).2
      rw [h] at this
      simp at this
  · intro hn
    obtain ⟨h1, h2⟩ := FdStandingsFetch.processSeason_rejected cfgS wS y tr hreq hn
    cases ho : (FdStandingsFetch.processSeason cfgS wS y tr).2 with
    | none => rw [ho] at h2; simp [FdStandingsFetch.fetchFailure] at h2
    | some a =>
      refine ⟨a, ?_⟩
      rw [FdStandingsFetch.loop_abort cfgS wS y rest tr a ho, h1]
  · constructor
    · intro h1
      by_cases h2 : accepted (w.Get (st.trace ++ [Event.request i (w.StandardURL yr)])
          (w.ShootingURL yr))
      · exact (processSeason_fetched_outcome cfg w i ys st yr hyr h1 h2).1
      · rw [processSeason_sho_rejected cfg w i ys st yr hyr h1 h2]
        simp
    · intro h
      by_contra hn
      rw [processSeason_std_rejected cfg w i ys st yr hyr hn] at h
      simp at h
  · intro hn
    rw [loop_cons_abort cfg w i ys more st Failure.fetchStandard
      (by rw [processSeason_std_rejected cfg w i ys st yr hyr hn]),
      processSeason_std_rejected cfg w i ys st yr hyr hn]
  · intro h1
    constructor
    · intro h2
      exact (processSeason_fetched_outcome cfg w i ys st yr hyr h1 h2).2
    · intro h
      by_contra hn
      rw [processSeason_sho_rejected cfg w i ys st yr hyr h1 hn] at h
      simp at h
  · intro h1 hn
    rw [loop_cons_abort cfg w i ys more st Failure.fetchShooting
      (by rw [processSeason_sho_rejected cfg w i ys st yr hyr h1 hn]),
      processSeason_sho_rejected cfg w i ys st yr hyr h1 hn]
  · intro hn pre hkey hsplit hmk hcr hhdr hpre
    obtain ⟨h1, h2⟩ := FdStandingsFetch.processSeason_rejected cfgS wS y tr hreq hn
    cases ho : (FdStandingsFetch.processSeason cfgS wS y tr).2 with
    | none => rw [ho] at h2; simp [FdStandingsFetch.fetchFailure] at h2
    | some a =>
      cases a with
      | nilRequest => rw [ho] at h2; simp [FdStandingsFetch.fetchFailure] at h2
      | sliceBounds => rw [ho] at h2; simp [FdStandingsFetch.fetchFailure] at h2
      | fatal f =>
        refine ⟨f, ?_⟩
        have hy : FdStandingsFetch.processSeason cfgS wS y tr =
            (tr ++ [FdStandingsFetch.Event.request (FdStandingsFetch.seasonURL cfgS y)
              cfgS.apiKey], some (FdStandingsFetch.Abort.fatal f)) :=
          Prod.ext h1 ho
        exact FdStandingsFetch.main_dies_fatal cfgS wS pre rest y tr _ f hkey hsplit hmk hcr
          hhdr hpre hy
  · intro pre hsplit hmk hcr hi hpre
    subst hi
    constructor
    · intro hn
      exact main_dies_at cfg w pre more ys st _ _ hsplit hmk hcr hpre
        (processSeason_std_rejected cfg w pre.length ys st yr hyr hn)
    · intro h1 hn
      exact main_dies_at cfg w pre more ys st _ _ hsplit hmk hcr hpre
        (processSeason_sho_rejected cfg w pre.length ys st yr hyr h1 hn)

theorem parseShooting_none_iff (w : World Table Rows Joined) (shoTable : Table) :
    (parseShooting w shoTable).2 = none ↔
      w.ParsePlayerTable shoTable w.RequiredShootingCols = none ∧
      w.ParsePlayerTable shoTable w.RequiredShootingColsFallback = none := by
  unfold parseShooting
  cases h1 : w.ParsePlayerTable shoTable w.RequiredShootingCols with
  | some r => simp
  | none =>
    cases h2 : w.ParsePlayerTable shoTable w.RequiredShootingColsFallback with
    | some r => simp
    | none => simp

theorem parseJoinWrite_parsed (cfg : Flags) (w : World Table Rows Joined) (i : Nat)
    (seasonStr : GoString) (stdTable shoTable : Table) (st : St) (stdRows shoRows : Rows)
    (hstd : w.ParsePlayerTable stdTable w.RequiredStandardCols = some stdRows)
    (hsho : (parseShooting w shoTable).2 = some shoRows) :
    (parseJoinWrite cfg w i seasonStr stdTable shoTable st).2 ≠ some Failure.parseShooting ∧
    ∃ rest, (parseJoinWrite cfg w i seasonStr stdTable shoTable st).1.trace =
      st.trace ++ Event.rows i (w.WriteBacktesterRows st.trace
        (w.JoinStandardShooting seasonStr stdRows shoRows cfg.destLeague cfg.fromLeague)).records
        :: rest := by
  unfold parseJoinWrite
  simp only [hstd, hsho]
  split
  · exact ⟨by simp [die], [], by simp [die, St.log]⟩
  · split
    · exact ⟨by simp [die], [Event.flush i], by simp [die, St.log]⟩
    · exact ⟨by simp, [Event.flush i, Event.report i (w.WriteBacktesterRows st.trace
        (w.JoinStandardShooting seasonStr stdRows shoRows cfg.destLeague cfg.fromLeague)).wrote],
        by simp [St.log]⟩

theorem parseJoinWrite_unparsed (cfg : Flags) (w : World Table Rows Joined) (i : Nat)
    (seasonStr : GoString) (stdTable shoTable : Table) (st : St) (stdRows : Rows)
    (hstd : w.ParsePlayerTable stdTable w.RequiredStandardCols = some stdRows)
    (hsho : (parseShooting w shoTable).2 = none) :
    parseJoinWrite cfg w i seasonStr stdTable shoTable st = (st, some Failure.parseShooting) := by
  unfold parseJoinWrite
  simp only [hstd, hsho, die]

/-- C3. The shooting table is parsed in two ordered attempts on the same
fragment.  When the parse against `RequiredShootingCols` succeeds, its rows
are the result and the parser is called with this column set only.  When it
fails, the parser is called a second time, with
`RequiredShootingColsFallback`, and the rows of that parse are the result
when it succeeds.  The rows that result are the ones joined and written.  A
season whose pages were fetched, whose tables were extracted and whose
standard table was parsed dies with the shooting parse message exactly when
both attempts fail, and then nothing is written for it. -/
theorem shooting_parse_fallback (cfg : Flags) (w : World Table Rows Joined) (i : Nat)
    (ys : GoString) (st : St) (yr : Int) (stdTable shoTable : Table) (stdRows : Rows)
    (hyr : Go.Atoi (Go.TrimSpace ys) = some yr)
    (h1 : accepted (w.Get st.trace (w.StandardURL yr)))
    (h2 : accepted (w.Get (st.trace ++ [Event.request i (w.StandardURL yr)]) (w.ShootingURL yr)))
    (hx1 : w.ExtractTable (w.Get st.trace (w.StandardURL yr)).body (ascii "stats_standard")
      = some stdTable)
    (hx2 : w.ExtractTable
      (w.Get (st.trace ++ [Event.request i (w.StandardURL yr)]) (w.ShootingURL yr)).body
      (ascii "stats_shooting") = some shoTable)
    (hstd : w.ParsePlayerTable stdTable w.RequiredStandardCols = some stdRows) :
    (∀ rows, w.ParsePlayerTable shoTable w.RequiredShootingCols = some rows →
      parseShooting w shoTable = ([w.RequiredShootingCols], some rows))
    ∧ (∀ rows, w.ParsePlayerTable shoTable w.RequiredShootingCols = none →
        w.ParsePlayerTable shoTable w.RequiredShootingColsFallback = some rows →
        parseShooting w shoTable =
          ([w.RequiredShootingCols, w.RequiredShootingColsFallback], some rows))
    ∧ (w.ParsePlayerTable shoTable w.RequiredShootingCols = none →
        w.ParsePlayerTable shoTable w.RequiredShootingColsFallback = none →
        parseShooting w shoTable =
          ([w.RequiredShootingCols, w.RequiredShootingColsFallback], none))
    ∧ (∀ shoRows, (parseShooting w shoTable).2 = some shoRows →
        ∃ rest, (processSeason cfg w i ys st).1.trace =
          st.trace ++ [Event.request i (w.StandardURL yr), Event.request i (w.ShootingURL yr)]
            ++ Event.rows i (w.WriteBacktesterRows
                (st.trace ++
                  [Event.request i (w.StandardURL yr), Event.request i (w.ShootingURL yr)])
                (w.JoinStandardShooting (w.SeasonLabel yr) stdRows shoRows
                  cfg.destLeague cfg.fromLeague)).records :: rest)
    ∧ ((processSeason cfg w i ys st).2 = some Failure.parseShooting ↔
        w.ParsePlayerTable shoTable w.RequiredShootingCols = none ∧
        w.ParsePlayerTable shoTable w.RequiredShootingColsFallback = none)
    ∧ (w.ParsePlayerTable shoTable w.RequiredShootingCols = none →
        w.ParsePlayerTable shoTable w.RequiredShootingColsFallback = none →
        (processSeason cfg w i ys st).1.trace =
          st.trace ++ [Event.request i (w.StandardURL yr), Event.request i (w.ShootingURL yr)]) := by
  have hps : processSeason cfg w i ys st =
      parseJoinWrite cfg w i (w.SeasonLabel yr) stdTable shoTable
        { st with trace := st.trace ++
          [Event.request i (w.StandardURL yr), Event.request i (w.ShootingURL yr)] } := by
    rw [processSeason_fetched cfg w i ys st yr hyr h1 h2]
    simp only [hx1, hx2]
  refine ⟨?_, ?_, ?_, ?_, ?_, ?_⟩
  · intro rows hr
    unfold parseShooting
    simp only [hr]
  · intro rows hr1 hr2
    unfold parseShooting
    simp only [hr1, hr2]
  · intro hr1 hr2
    unfold parseShooting
    simp only [hr1, hr2]
  · intro shoRows hsho
    rw [hps]
    obtain ⟨_, rest, hrest⟩ := parseJoinWrite_parsed cfg w i (w.SeasonLabel yr) stdTable shoTable
      { st with trace := st.trace ++
        [Event.request i (w.StandardURL yr), Event.request i (w.ShootingURL yr)] }
      stdRows shoRows hstd hsho
    exact ⟨rest, hrest⟩
  · rw [hps, ← parseShooting_none_iff]
    cases hsho : (parseShooting w shoTable).2 with
    | none =>
      rw [parseJoinWrite_unparsed cfg w i _ stdTable shoTable _ stdRows hstd hsho]
      simp
    | some shoRows =>
      have := (parseJoinWrite_parsed cfg w i (w.SeasonLabel yr) stdTable shoTable
        { st with trace := st.trace ++
          [Event.request i (w.StandardURL yr), Event.request i (w.ShootingURL yr)] }
        stdRows shoRows hstd hsho).1
      simp [this]
  · intro hr1 hr2
    rw [hps, parseJoinWrite_unparsed cfg w i _ stdTable shoTable _ stdRows hstd
      ((parseShooting_none_iff w shoTable).2 ⟨hr1, hr2⟩)]

end FbrefPlayersFetch

/-! ## Status codes and season labels in the standings command -/

namespace FdStandingsFetch

theorem fetchFailure_of_rateLimited (o : Option Abort) (c : Int)
    (h : o = some (Abort.fatal (Failure.rateLimited c))) : fetchFailure o = true := by
  subst h; rfl

theorem fetchFailure_of_badStatus (o : Option Abort) (c : Int)
    (h : o = some (Abort.fatal (Failure.badStatus c))) : fetchFailure o = true := by
  subst h; rfl

/-- C7, amended.  For a response fetched without transport error (the
request was built and sent), the standings command reports the failure as
rate limited exactly when the status code is 429 or greater, and as a bad
status exactly when the code is below 200 or from 300 to 428; the code
reported is the code of the response.  When the seasons before are processed
without failure, the whole program ends with that report, the request being
its last event. -/
theorem status_failure_kind (cfg : Flags) (w : World) (y : GoString) (tr : List Event)
    (hreq : w.NewRequest (seasonURL cfg y) = true)
    (herr : (w.Do tr (seasonURL cfg y) cfg.apiKey).err = false) :
    ((∃ c, (processSeason cfg w y tr).2 = some (Abort.fatal (Failure.rateLimited c))) ↔
      429 ≤ (w.Do tr (seasonURL cfg y) cfg.apiKey).code)
    ∧ ((∃ c, (processSeason cfg w y tr).2 = some (Abort.fatal (Failure.badStatus c))) ↔
        ((w.Do tr (seasonURL cfg y) cfg.apiKey).code < 200 ∨
          (300 ≤ (w.Do tr (seasonURL cfg y) cfg.apiKey).code ∧
            (w.Do tr (seasonURL cfg y) cfg.apiKey).code < 429)))
    ∧ (∀ c, (processSeason cfg w y tr).2 = some (Abort.fatal (Failure.rateLimited c)) ∨
          (processSeason cfg w y tr).2 = some (Abort.fatal (Failure.badStatus c)) →
        c = (w.Do tr (seasonURL cfg y) cfg.apiKey).code)
    ∧ (∀ pre post : List GoString, cfg.apiKey ≠ [] →
        split cfg.seasonsCSV = pre ++ y :: post →
        w.mkdirAllErr = false → w.createErr = false → w.writeErr [] header = false →
        loop cfg w pre [Event.write header] = (tr, none) →
        (429 ≤ (w.Do tr (seasonURL cfg y) cfg.apiKey).code →
          main cfg w =
            (tr ++ [Event.request (seasonURL cfg y) cfg.apiKey],
              some (Abort.fatal
                (Failure.rateLimited (w.Do tr (seasonURL cfg y) cfg.apiKey).code))))
        ∧ ((w.Do tr (seasonURL cfg y) cfg.apiKey).code < 200 ∨
            (300 ≤ (w.Do tr (seasonURL cfg y) cfg.apiKey).code ∧
              (w.Do tr (seasonURL cfg y) cfg.apiKey).code < 429) →
          main cfg w =
            (tr ++ [Event.request (seasonURL cfg y) cfg.apiKey],
              some (Abort.fatal
                (Failure.badStatus (w.Do tr (seasonURL cfg y) cfg.apiKey).code))))) := by
  have hmainlevel : ∀ pre post : List GoString, cfg.apiKey ≠ [] →
      split cfg.seasonsCSV = pre ++ y :: post →
      w.mkdirAllErr = false → w.createErr = false → w.writeErr [] header = false →
      loop cfg w pre [Event.write header] = (tr, none) →
      (429 ≤ (w.Do tr (seasonURL cfg y) cfg.apiKey).code →
        main cfg w =
          (tr ++ [Event.request (seasonURL cfg y) cfg.apiKey],
            some (Abort.fatal
              (Failure.rateLimited (w.Do tr (seasonURL cfg y) cfg.apiKey).code))))
      ∧ ((w.Do tr (seasonURL cfg y) cfg.apiKey).code < 200 ∨
          (300 ≤ (w.Do tr (seasonURL cfg y) cfg.apiKey).code ∧
            (w.Do tr (seasonURL cfg y) cfg.apiKey).code < 429) →
        main cfg w =
          (tr ++ [Event.request (seasonURL cfg y) cfg.apiKey],
            some (Abort.fatal
              (Failure.badStatus (w.Do tr (seasonURL cfg y) cfg.apiKey).code)))) := by
    intro pre post hkey hsplit hmk hcr hhdr hpre
    constructor
    · intro hc
      exact main_dies_fatal cfg w pre post y tr _ _ hkey hsplit hmk hcr hhdr hpre
        (processSeason_rate cfg w y tr hreq herr hc)
    · intro hb
      exact main_dies_fatal cfg w pre post y tr _ _ hkey hsplit hmk hcr hhdr hpre
        (processSeason_bad cfg w y tr hreq herr (by omega) (by omega))
  refine and_assoc.1 (and_assoc.1 ⟨?_, hmainlevel⟩)
  rw [and_assoc]
  by_cases h429 : 429 ≤ (w.Do tr (seasonURL cfg y) cfg.apiKey).code
  · rw [processSeason_rate cfg w y tr hreq herr h429]
    refine ⟨⟨fun _ => h429, fun _ => ⟨_, rfl⟩⟩, ?_, ?_⟩
    · constructor
      · rintro ⟨c, hc⟩
        simp at hc
      · intro h
        omega
    · intro c hc
      rcases hc with hc | hc
      · simp only [Option.some.injEq, Abort.fatal.injEq, Failure.rateLimited.injEq] at hc
        exact hc.symm
      · simp at hc
  · by_cases hbad : (w.Do tr (seasonURL cfg y) cfg.apiKey).code < 200
        ∨ 300 ≤ (w.Do tr (seasonURL cfg y) cfg.apiKey).code
    · rw [processSeason_bad cfg w y tr hreq herr (by omega) hbad]
      refine ⟨?_, ⟨fun _ => by omega, fun _ => ⟨_, rfl⟩⟩, ?_⟩
      · constructor
        · rintro ⟨c, hc⟩
          simp at hc
        · intro h
          exact absurd h h429
      · intro c hc
        rcases hc with hc | hc
        · simp at hc
        · simp only [Option.some.injEq, Abort.fatal.injEq, Failure.badStatus.injEq] at hc
          exact hc.symm
    · have hacc : accepted (w.Do tr (seasonURL cfg y) cfg.apiKey) := ⟨herr, by omega, by omega⟩
      have hff := processSeason_accepted_outcome cfg w y tr hreq hacc
      refine ⟨?_, ?_, ?_⟩
      · constructor
        · rintro ⟨c, hc⟩
          rw [fetchFailure_of_rateLimited _ c hc] at hff
          simp at hff
        · intro h
          exact absurd h h429
      · constructor
        · rintro ⟨c, hc⟩
          rw [fetchFailure_of_badStatus _ c hc] at hff
          simp at hff
        · intro h
          omega
      · intro c hc
        rcases hc with hc | hc
        · rw [fetchFailure_of_rateLimited _ c hc] at hff
          simp at hff
        · rw [fetchFailure_of_badStatus _ c hc] at hff
          simp at hff

theorem writeRows_no_panic (w : World) (label : GoString) (rows : List TableRow) :
    ∀ tr : List Event, (writeRows w label rows tr).2 ≠ some Abort.sliceBounds := by
  induction rows with
  | nil => intro tr; simp [writeRows]
  | cons row rows ih =>
    intro tr
    unfold writeRows
    simp only
    split
    · simp
    · exact ih _

theorem seasonStr_of_two_le (t : GoString) (h : 2 ≤ t.length) :
    seasonStr t = some (t ++ ascii "/" ++ t.drop 2) := by
  unfold seasonStr Go.sliceFrom
  simp [h]

theorem seasonStr_eq_none_iff (t : GoString) : seasonStr t = none ↔ t.length < 2 := by
  unfold seasonStr Go.sliceFrom
  by_cases h : 2 ≤ t.length
  · simp [h]
  · simp only [h, if_false]
    constructor
    · intro _; omega
    · intro _; trivial

theorem split_eq_players (s : GoString) : split s = FbrefPlayersFetch.split s := rfl

theorem processSeason_no_sliceBounds (cfg : Flags) (w : World) (t : GoString)
    (tr : List Event) (h : 2 ≤ t.length) :
    (processSeason cfg w t tr).2 ≠ some Abort.sliceBounds := by
  unfold processSeason
  simp only [seasonStr_of_two_le t h]
  split
  · simp
  · split
    · simp
    · split
      · simp
      · split
        · simp
        · split
          · simp
          · split
            · simp
            · exact writeRows_no_panic _ _ _ _

/-- C10. The season label of a token `t` of at least two bytes is `t`, a
slash, and `t` without its first two bytes; the slice is in range and the
label is computed ("2020" gives "2020/20").  For a token `y` produced by
`split`, the label cannot be computed exactly when `y` has length 1: then,
once the request has been built and sent and its response accepted and
decoded, the slice `y[2:]` is out of range and the season ends in the
slice-bounds panic, right after the request; when the seasons before are
processed without failure, the whole program ends in that panic, the
deferred flush being its last event.  A token of at least two bytes never
makes the slice go out of range, whatever else happens. -/
theorem season_label_slice (cfg : Flags) (w : World) (s y : GoString) (tr : List Event)
    (hy : y ∈ split s)
    (hreq : w.NewRequest (seasonURL cfg y) = true)
    (hacc : accepted (w.Do tr (seasonURL cfg y) cfg.apiKey))
    (hdec : w.Unmarshal (w.Do tr (seasonURL cfg y) cfg.apiKey).body ≠ none) :
    (∀ t : GoString, 2 ≤ t.length → seasonStr t = some (t ++ ascii "/" ++ t.drop 2))
    ∧ seasonStr (ascii "2020") = some (ascii "2020/20")
    ∧ (seasonStr y = none ↔ y.length = 1)
    ∧ (y.length = 1 →
        processSeason cfg w y tr =
          (tr ++ [Event.request (seasonURL cfg y) cfg.apiKey], some Abort.sliceBounds))
    ∧ (∀ (cfg2 : Flags) (w2 : World) (t : GoString) (tr2 : List Event), 2 ≤ t.length →
        (processSeason cfg2 w2 t tr2).2 ≠ some Abort.sliceBounds)
    ∧ (y.length = 1 → ∀ pre post : List GoString, cfg.apiKey ≠ [] →
        split cfg.seasonsCSV = pre ++ y :: post →
        w.mkdirAllErr = false → w.createErr = false → w.writeErr [] header = false →
        loop cfg w pre [Event.write header] = (tr, none) →
        main cfg w =
          (tr ++ [Event.request (seasonURL cfg y) cfg.apiKey] ++ [Event.flush],
            some Abort.sliceBounds)) := by
  have hne : y ≠ [] := by
    rw [split_eq_players] at hy
    exact (split_token s y hy).1
  have hpos : 0 < y.length := List.length_pos.2 hne
  obtain ⟨sr, hsr⟩ : ∃ sr, w.Unmarshal (w.Do tr (seasonURL cfg y) cfg.apiKey).body = some sr := by
    cases h : w.Unmarshal (w.Do tr (seasonURL cfg y) cfg.apiKey).body with
    | none => exact absurd h hdec
    | some sr => exact ⟨sr, rfl⟩
  have hpanic : y.length = 1 →
      processSeason cfg w y tr =
        (tr ++ [Event.request (seasonURL cfg y) cfg.apiKey], some Abort.sliceBounds) := by
    intro h1
    have hn : seasonStr y = none := (seasonStr_eq_none_iff y).2 (by omega)
    rw [processSeason_accepted cfg w y tr hreq hacc]
    simp only [hsr, hn]
  refine ⟨seasonStr_of_two_le, by decide, ?_, hpanic, ?_, ?_⟩
  · rw [seasonStr_eq_none_iff]
    omega
  · intro cfg2 w2 t tr2 h2
    exact processSeason_no_sliceBounds cfg2 w2 t tr2 h2
  · intro h1 pre post hkey hsplit hmk hcr hhdr hpre
    exact main_dies_sliceBounds cfg w pre post y tr _ hkey hsplit hmk hcr hhdr hpre (hpanic h1)

end FdStandingsFetch

/-! ## The description of `split` -/

theorem players_main_no_seasons {Table Rows Joined : Type} (cfg : FbrefPlayersFetch.Flags)
    (w : FbrefPlayersFetch.World Table Rows Joined) :
    FbrefPlayersFetch.main cfg w = ([], some FbrefPlayersFetch.Failure.noSeasons) ↔
      FbrefPlayersFetch.split cfg.seasonsCSV = [] := by
  constructor
  · intro h
    by_contra hne
    have h0 : (FbrefPlayersFetch.split cfg.seasonsCSV).length ≠ 0 :=
      fun hl => hne (List.length_eq_zero.1 hl)
    obtain ⟨evs, he, _⟩ := FbrefPlayersFetch.loop_seasons cfg w
      (FbrefPlayersFetch.split cfg.seasonsCSV) 0
      { trace := [FbrefPlayersFetch.Event.header], totalRows := 0 }
    unfold FbrefPlayersFetch.main at h
    simp only [h0, if_false] at h
    split at h
    · simp at h
    · split at h
      · simp at h
      · split at h
        · next st f heq =>
          rw [heq] at he
          simp only [Prod.mk.injEq] at h
          rw [h.1] at he
          simp at he
        · simp at h
  · intro h
    unfold FbrefPlayersFetch.main
    simp [h]

/-- C9. `split` is the same function in both commands, and it equals its
description: split the input on commas, trim the white space around each
part, keep the non-empty results in their order.  Every element of the result
is therefore non-empty, neither starts nor ends with white space and contains
no comma; the result has at most one element more than the input has
commas; and the result is empty, which makes the player command die with "no
seasons provided" before any other effect, exactly when the input is made of
commas and white space only. -/
theorem split_description {Table Rows Joined : Type} (s dest src : GoString)
    (w : FbrefPlayersFetch.World Table Rows Joined) :
    FdStandingsFetch.split s = FbrefPlayersFetch.split s
    ∧ FbrefPlayersFetch.split s = splitSpec s
    ∧ (∀ p ∈ FbrefPlayersFetch.split s,
        p ≠ [] ∧ ¬ startsWithSpace p ∧ ¬ endsWithSpace p ∧ 44 ∉ p)
    ∧ (FbrefPlayersFetch.split s).length ≤ s.count 44 + 1
    ∧ (FbrefPlayersFetch.split s = [] ↔ onlyCommasAndSpace s)
    ∧ (FbrefPlayersFetch.main { seasonsCSV := s, destLeague := dest, fromLeague := src } w
          = ([], some FbrefPlayersFetch.Failure.noSeasons) ↔ onlyCommasAndSpace s) := by
  refine ⟨rfl, split_eq_splitSpec s, split_token s, split_length_le s, split_eq_nil_iff s, ?_⟩
  rw [players_main_no_seasons]
  exact split_eq_nil_iff s

/-! ## The join -/

namespace Fbref

theorem lookupIndex_none (norm : GoString → GoString) (sho : List PlayerRow)
    (k : GoString × GoString) (h : ∀ sh ∈ sho, identityKey norm sh ≠ k) :
    lookupIndex (buildIndex norm sho) k = none := by
  unfold lookupIndex buildIndex
  have : (sho.map (fun r => (identityKey norm r, r))).find? (fun e => e.1 = k) = none := by
    rw [List.find?_eq_none]
    intro e he
    obtain ⟨r, hr, rfl⟩ := List.mem_map.1 he
    simpa using h r hr
  rw [this]

theorem lookupIndex_some (norm : GoString → GoString) (sho : List PlayerRow)
    (k : GoString × GoString) (sh : PlayerRow) (h : lookupIndex (buildIndex norm sho) k = some sh) :
    sh ∈ sho ∧ identityKey norm sh = k := by
  unfold lookupIndex buildIndex at h
  cases hf : (sho.map (fun r => (identityKey norm r, r))).find? (fun e => e.1 = k) with
  | none => rw [hf] at h; simp at h
  | some e =>
    rw [hf] at h
    simp only [Option.some.injEq] at h
    have hm := List.mem_of_find?_eq_some hf
    have hp := (List.find?_eq_some.1 hf).1
    obtain ⟨r, hr, rfl⟩ := List.mem_map.1 hm
    simp only at h
    subst h
    exact ⟨hr, by simpa using hp⟩

/-- C8. The join modelled from the spec keeps the coverage and the order of
the standard rows: the output has one row per standard row, in the order of
the standard table, with the identity and the standard metrics of that row
and with the season label and the two league names passed in.  A standard
row without a shooting row of the same key is emitted with empty shooting
fields, not dropped; a standard row with such a shooting row carries the
values of a shooting row of its key.  For the standard players A and B and a
shooting table with A only, the join has two rows, the second one for B with
empty shooting fields. -/
theorem join_keeps_standard_rows (norm : GoString → GoString) (seasonLabel : GoString)
    (std sho : List PlayerRow) (dest src : GoString) :
    (JoinStandardShooting norm seasonLabel std sho dest src).length = std.length
    ∧ (JoinStandardShooting norm seasonLabel std sho dest src).map
        (fun j => (j.player, j.team, j.standard))
        = std.map (fun r => (r.player, r.team, r.values))
    ∧ (∀ j ∈ JoinStandardShooting norm seasonLabel std sho dest src,
        j.season = seasonLabel ∧ j.destLeague = dest ∧ j.fromLeague = src)
    ∧ (∀ (k : Nat) (r : PlayerRow), std[k]? = some r →
        (∀ sh ∈ sho, identityKey norm sh ≠ identityKey norm r) →
        (JoinStandardShooting norm seasonLabel std sho dest src)[k]? =
          some ({ season := seasonLabel, fromLeague := src, destLeague := dest,
                  player := r.player, team := r.team, standard := r.values,
                  shooting := [] } : JoinedRow))
    ∧ (∀ (k : Nat) (r : PlayerRow), std[k]? = some r →
        (∃ sh ∈ sho, identityKey norm sh = identityKey norm r) →
        ∃ sh ∈ sho, identityKey norm sh = identityKey norm r ∧
          (JoinStandardShooting norm seasonLabel std sho dest src)[k]? =
            some ({ season := seasonLabel, fromLeague := src, destLeague := dest,
                    player := r.player, team := r.team, standard := r.values,
                    shooting := sh.values } : JoinedRow))
    ∧ (JoinStandardShooting (fun x => x) (ascii "2020")
          FbrefPlayersFetch.sampleStandardRows FbrefPlayersFetch.sampleShootingRows
          (ascii "EPL") (ascii "EPL")).map (fun j => (j.player, j.shooting))
        = [(ascii "A", [(ascii "xg", ascii "0.8")]), (ascii "B", [])] := by
  refine ⟨by simp [JoinStandardShooting], by simp [JoinStandardShooting], ?_, ?_, ?_, by decide⟩
  · intro j hj
    unfold JoinStandardShooting at hj
    obtain ⟨r, _, rfl⟩ := List.mem_map.1 hj
    exact ⟨rfl, rfl, rfl⟩
  · intro k r hk hno
    unfold JoinStandardShooting
    simp only [List.getElem?_map, hk, Option.map_some']
    rw [lookupIndex_none norm sho _ hno]
  · intro k r hk hex
    unfold JoinStandardShooting
    simp only [List.getElem?_map, hk, Option.map_some']
    cases hl : lookupIndex (buildIndex norm sho) (identityKey norm r) with
    | none =>
      exfalso
      unfold lookupIndex buildIndex at hl
      cases hf : (sho.map (fun r => (identityKey norm r, r))).find?
          (fun e => e.1 = identityKey norm r) with
      | none =>
        obtain ⟨sh, hsh, hkey⟩ := hex
        have := List.find?_eq_none.1 hf (identityKey norm sh, sh)
          (List.mem_map.2 ⟨sh, hsh, rfl⟩)
        simp [hkey] at this
      | some e => rw [hf] at hl; simp at hl
    | some sh =>
      obtain ⟨h1, h2⟩ := lookupIndex_some norm sho _ sh hl
      exact ⟨sh, h1, h2, rfl⟩

end Fbref

/-! ## Concrete runs -/

namespace FdStandingsFetch

/-- Of a HOME entry followed by an entry of type "Total", the second is
selected. -/
theorem pickMainTable_first_match_witness :
    ∃ pre s post, sampleResp.Standings = pre ++ s :: post ∧ (∀ x ∈ pre, ¬ isTotal x.Typ) ∧
      isTotal s.Typ ∧ pickMainTable sampleResp.Standings = (s, none) :=
  (pickMainTable_first_match sampleResp.Standings).1
    ⟨_, List.mem_cons_of_mem _ (List.mem_cons_self _ _), by decide⟩

/-- C7, counterexample.  The response has no transport error and the status
500, which is not the throttling status 429, and the run reports it with the
rate-limit message, not as a bad status. -/
theorem status_500_reported_rate_limited :
    ((sampleWorld 500).Do [Event.write header] (seasonURL sampleFlags (ascii "2020"))
        sampleFlags.apiKey).err = false
    ∧ ((sampleWorld 500).Do [Event.write header] (seasonURL sampleFlags (ascii "2020"))
        sampleFlags.apiKey).code = 500
    ∧ main sampleFlags (sampleWorld 500) =
        ([Event.write header,
          Event.request (ascii "https://api.football-data.org/v4/competitions/PL/standings?season=2020")
            (ascii "secret")],
         some (Abort.fatal (Failure.rateLimited 500))) := by
  decide

/-- The status 404 is reported as a bad status, and the run ends there. -/
theorem status_failure_kind_witness :
    main { sampleFlags with seasonsCSV := ascii "2020" } (sampleWorld 404) =
      ([Event.write header] ++
        [Event.request (seasonURL sampleFlags (ascii "2020")) sampleFlags.apiKey],
       some (Abort.fatal (Failure.badStatus
        ((sampleWorld 404).Do [Event.write header] (seasonURL sampleFlags (ascii "2020"))
          sampleFlags.apiKey).code))) :=
  ((status_failure_kind sampleFlags (sampleWorld 404) (ascii "2020") [Event.write header]
    (by decide) (by decide)).2.2.2 [] [] (by decide) (by decide) (by decide) (by decide)
    (by decide) (by decide)).2 (by decide)

/-- The season list "5" makes the program panic at the slice once the
response is decoded. -/
theorem season_label_slice_witness :
    ascii "5" ∈ split (ascii "5") ∧
    main { sampleFlags with seasonsCSV := ascii "5" } (sampleWorld 200) =
      ([Event.write header] ++
        [Event.request (seasonURL sampleFlags (ascii "5")) sampleFlags.apiKey] ++ [Event.flush],
        some Abort.sliceBounds) :=
  ⟨by decide,
   (season_label_slice { sampleFlags with seasonsCSV := ascii "5" } (sampleWorld 200)
      (ascii "5") (ascii "5") [Event.write header]
      (by decide) (by decide) (by decide) (by decide)).2.2.2.2.2 (by decide) [] []
      (by decide) (by decide) (by decide) (by decide) (by decide) (by decide)⟩

end FdStandingsFetch

namespace FbrefPlayersFetch

/-- With the first column set failing and the fallback set succeeding, the
parser is called twice and the season does not die at the shooting parse. -/
theorem shooting_parse_fallback_witness :
    parseShooting (sampleWorld 200 false true none) (ascii "stats_shooting") =
      ([(sampleWorld 200 false true none).RequiredShootingCols,
        (sampleWorld 200 false true none).RequiredShootingColsFallback],
       some sampleShootingRows)
    ∧ (processSeason sampleFlags (sampleWorld 200 false true none) 0 (ascii "2020")
        { trace := [Event.header], totalRows := 0 }).2 ≠ some Failure.parseShooting := by
  have h := shooting_parse_fallback sampleFlags (sampleWorld 200 false true none) 0
    (ascii "2020") { trace := [Event.header], totalRows := 0 } 2020 (ascii "stats_standard")
    (ascii "stats_shooting") sampleStandardRows (by decide) (by decide) (by decide) (by decide)
    (by decide) (by decide)
  refine ⟨h.2.1 sampleShootingRows (by decide) (by decide), ?_⟩
  intro hc
  have := h.2.2.2.2.1.1 hc
  exact absurd this.2 (by decide)

/-- A response with the status 429 ends both programs at that request: the
standings command at its only request, the player command at the request of
the shooting page. -/
theorem response_accepted_iff_2xx_witness :
    (∃ f, FdStandingsFetch.main FdStandingsFetch.sampleFlags (FdStandingsFetch.sampleWorld 429) =
      ([FdStandingsFetch.Event.write FdStandingsFetch.header] ++
        [FdStandingsFetch.Event.request
          (FdStandingsFetch.seasonURL FdStandingsFetch.sampleFlags (ascii "2020"))
          FdStandingsFetch.sampleFlags.apiKey],
       some (FdStandingsFetch.Abort.fatal f)))
    ∧ main sampleFlags (sampleWorld 429 true true none) =
        ([Event.header] ++
          [Event.request 0 ((sampleWorld 429 true true none).StandardURL 2020),
           Event.request 0 ((sampleWorld 429 true true none).ShootingURL 2020)],
         some Failure.fetchShooting) :=
  ⟨(response_accepted_iff_2xx FdStandingsFetch.sampleFlags (FdStandingsFetch.sampleWorld 429)
      (ascii "2020") [] [FdStandingsFetch.Event.write FdStandingsFetch.header]
      sampleFlags (sampleWorld 429 true true none) 0 (ascii "2020")
      [ascii "2021"] { trace := [Event.header], totalRows := 0 } 2020 (by decide)
      (by decide)).2.2.2.2.2.2.1 (by decide) [] (by decide) (by decide) (by decide)
      (by decide) (by decide) (by decide),
   ((response_accepted_iff_2xx FdStandingsFetch.sampleFlags (FdStandingsFetch.sampleWorld 429)
      (ascii "2020") [] [FdStandingsFetch.Event.write FdStandingsFetch.header]
      sampleFlags (sampleWorld 429 true true none) 0 (ascii "2020")
      [ascii "2021"] { trace := [Event.header], totalRows := 0 } 2020 (by decide)
      (by decide)).2.2.2.2.2.2.2 [] (by decide) (by decide) (by decide) rfl
      (by decide)).2 (by decide) (by decide)⟩

/-- In the sample run over 2020 and 2021 the first request of 2021 comes
after the rows and the flush of 2020. -/
theorem seasons_in_sequence_witness :
    ∃ recs, List.Sublist [Event.rows 0 recs, Event.flush 0]
      [Event.header,
       Event.request 0 (ascii "https://fbref.example/standard/2020"),
       Event.request 0 (ascii "https://fbref.example/shooting/2020"),
       Event.rows 0
         [[ascii "2020", ascii "EPL", ascii "EPL", ascii "A", ascii "X"],
          [ascii "2020", ascii "EPL", ascii "EPL", ascii "B", ascii "X"]],
       Event.flush 0,
       Event.report 0 2] :=
  (seasons_in_sequence sampleFlags (sampleWorld 200 true true none)).2 0
    (ascii "https://fbref.example/standard/2021") _
    [Event.request 1 (ascii "https://fbref.example/shooting/2021"),
     Event.rows 1
       [[ascii "2021", ascii "EPL", ascii "EPL", ascii "A", ascii "X"],
        [ascii "2021", ascii "EPL", ascii "EPL", ascii "B", ascii "X"]],
     Event.flush 1,
     Event.report 1 2,
     Event.done 4,
     Event.deferredFlush]
    (by decide)

end FbrefPlayersFetch

/-- The input ", ," has no season: `split` returns nothing for it, and
" 2020, 2021 ,,x " has three tokens. -/
theorem split_description_witness :
    FbrefPlayersFetch.split (ascii ", ,") = []
    ∧ FbrefPlayersFetch.split (ascii " 2020, 2021 ,,x ")
        = [ascii "2020", ascii "2021", ascii "x"] :=
  ⟨(split_description (ascii ", ,") [] []
      (FbrefPlayersFetch.sampleWorld 200 true true none)).2.2.2.2.1.2
      ⟨[[44], [32], [44]], by decide, by decide⟩,
   by decide⟩
